import Mathlib

/-!
Verification development for the pygbm histogram-based tree grower.

The repository excerpt ships only the test-suite (`tests/test_grower.py`) and a
plotting helper (`pygbm/plotting.py`); the core modules (`pygbm/grower.py`,
`pygbm/splitting.py`, `pygbm/predictor.py`, `pygbm/binning.py`) are not part of
the excerpt.  Every definition of the core below is therefore modelled from the
specification text, as indicated by its doc comment.  Real-valued quantities
are embedded as rationals so that all computations are exact and executable.
-/

namespace Pygbm

/-- Modelled from the spec: the configuration record threaded through the
grower and splitter (spec section 6): `max_bins`, `shrinkage`,
`min_samples_leaf`, `min_gain_to_split`, `min_hessian_to_split`, optional
`max_leaf_nodes`, and the L2 regularization constant lambda (`l2_reg`). -/
structure Config where
  max_bins : ℕ
  shrinkage : ℚ
  min_samples_leaf : ℕ
  min_gain_to_split : ℚ
  min_hessian_to_split : ℚ
  max_leaf_nodes : Option ℕ
  l2_reg : ℚ
deriving DecidableEq

/-- Modelled from the spec: the binned feature matrix (spec section 3), a
feature-major grid of small integers together with the two layout facts the
constructor validates (quantized integer dtype, Fortran contiguity).
`cols` lists the matrix one feature column at a time. -/
structure BinnedMatrix where
  dtype_uint8 : Bool
  fortran : Bool
  n_samples : ℕ
  cols : List (List ℕ)
deriving DecidableEq

/-- Modelled from the spec: hessians are either a per-sample array or a single
scalar broadcast to all samples ("constant hessian" mode, spec section 3). -/
inductive Hessians where
  | scalar (c : ℚ)
  | perSample (h : List ℚ)
deriving DecidableEq

/-- Modelled from the spec: the `SplitInfo` record (spec section 3): feature
index, bin threshold (samples with bin at most the threshold go left), gain,
left/right gradient and hessian sums, left/right sample counts. -/
structure SplitInfo where
  gain : ℚ
  feature_idx : ℕ
  bin_idx : ℕ
  gradient_left : ℚ
  gradient_right : ℚ
  hessian_left : ℚ
  hessian_right : ℚ
  n_samples_left : ℕ
  n_samples_right : ℕ
deriving DecidableEq

/-- Sum of the gradient entries over a list of sample indices. -/
def gradSum (g : List ℚ) (S : List ℕ) : ℚ :=
  (S.map (fun i => g.getD i 0)).sum

/-- Modelled from the spec: hessian sum over a list of sample indices; in
constant-hessian mode the sum derives from counts times the scalar
(spec section 4.2, numeric semantics). -/
def hessSum : Hessians → List ℕ → ℚ
  | .scalar c, S => c * S.length
  | .perSample h, S => (S.map (fun i => h.getD i 0)).sum

/-- Feature column `f` of the binned matrix. -/
def colOf (X : BinnedMatrix) (f : ℕ) : List ℕ :=
  X.cols.getD f []

/-- A sample goes left at a candidate split iff its bin value for the split
feature is at most the bin threshold (spec sections 3 and 4.3). -/
def goesLeft (X : BinnedMatrix) (f t i : ℕ) : Bool :=
  decide ((colOf X f).getD i 0 ≤ t)

/-- The sample indices of `S` sent to the left child by candidate `(f, t)`. -/
def leftSamples (X : BinnedMatrix) (S : List ℕ) (f t : ℕ) : List ℕ :=
  S.filter (goesLeft X f t)

/-- The sample indices of `S` sent to the right child by candidate `(f, t)`. -/
def rightSamples (X : BinnedMatrix) (S : List ℕ) (f t : ℕ) : List ℕ :=
  S.filter (fun i => !(goesLeft X f t i))

/-- Modelled from the spec: the regularized gain formula (spec section 4.2):
`gain = 0.5 * (GL^2/(HL+lam) + GR^2/(HR+lam) - G^2/(H+lam))`. -/
def splitGain (lam gl hl gr hr g h : ℚ) : ℚ :=
  1/2 * (gl ^ 2 / (hl + lam) + gr ^ 2 / (hr + lam) - g ^ 2 / (h + lam))

/-- Modelled from the spec: the `SplitInfo` built for candidate `c = (f, t)` at
a node with samples `S`, gradient sum `G` and hessian sum `H`; the right-side
statistics derive from the totals (`GR = G - GL`, `HR = H - HL`). -/
def mkSplitInfo (cfg : Config) (X : BinnedMatrix) (g : List ℚ) (h : Hessians)
    (S : List ℕ) (G H : ℚ) (c : ℕ × ℕ) : SplitInfo :=
  let L := leftSamples X S c.1 c.2
  let gl := gradSum g L
  let hl := hessSum h L
  { gain := splitGain cfg.l2_reg gl hl (G - gl) (H - hl) G H
    feature_idx := c.1
    bin_idx := c.2
    gradient_left := gl
    gradient_right := G - gl
    hessian_left := hl
    hessian_right := H - hl
    n_samples_left := L.length
    n_samples_right := S.length - L.length }

/-- Modelled from the spec: a candidate threshold is rejected when
`left_count < min_samples_leaf`, `right_count < min_samples_leaf`,
`H_left < min_hessian_to_split`, or `H_right < min_hessian_to_split`
(spec section 4.2 step 3). -/
def candAccepted (cfg : Config) (X : BinnedMatrix) (h : Hessians)
    (S : List ℕ) (H : ℚ) (c : ℕ × ℕ) : Bool :=
  let L := leftSamples X S c.1 c.2
  decide (cfg.min_samples_leaf ≤ L.length) &&
  decide (cfg.min_samples_leaf ≤ S.length - L.length) &&
  decide (cfg.min_hessian_to_split ≤ hessSum h L) &&
  decide (cfg.min_hessian_to_split ≤ H - hessSum h L)

/-- The gain of candidate `c`. -/
def candGain (cfg : Config) (X : BinnedMatrix) (g : List ℚ) (h : Hessians)
    (S : List ℕ) (G H : ℚ) (c : ℕ × ℕ) : ℚ :=
  (mkSplitInfo cfg X g h S G H c).gain

/-- Scan-order position of candidate `(f, t)`: feature index ascending, bin
index ascending (spec section 4.2 step 4 and section 9). -/
def scanRank (cfg : Config) (c : ℕ × ℕ) : ℕ :=
  c.1 * cfg.max_bins + c.2

/-- All candidate thresholds of one feature, bins in increasing order. -/
def binsFor (cfg : Config) (f : ℕ) : List (ℕ × ℕ) :=
  (List.range cfg.max_bins).map (fun t => (f, t))

/-- Modelled from the spec: the deterministic candidate scan order, feature
index ascending then bin index ascending (spec sections 4.2 and 9). -/
def scanCandidates (cfg : Config) (X : BinnedMatrix) : List (ℕ × ℕ) :=
  (List.range X.cols.length).flatMap (binsFor cfg)

/-- Fold computing the first maximum of `f` over `a :: xs` (a later element
replaces the current best only on strict improvement). -/
def amFold (f : α → ℚ) (a : α) : List α → α
  | [] => a
  | y :: ys => amFold f (if f a < f y then y else a) ys

/-- First element of the list attaining the maximum of `f`; `none` on the
empty list. -/
def argmaxFirst (f : α → ℚ) : List α → Option α
  | [] => none
  | x :: xs => some (amFold f x xs)

/-- Modelled from the spec: `find_best_split` (spec section 4.2): keep the
accepted candidate with the maximum gain across all features, ties broken by
the first-encountered candidate in scan order; if no candidate is accepted,
report "no split" (`none`, standing for the minus-infinity sentinel). -/
def find_best_split (cfg : Config) (X : BinnedMatrix) (g : List ℚ)
    (h : Hessians) (S : List ℕ) (G H : ℚ) : Option SplitInfo :=
  (argmaxFirst (candGain cfg X g h S G H)
      ((scanCandidates cfg X).filter (candAccepted cfg X h S H))).map
    (mkSplitInfo cfg X g h S G H)

/-- Modelled from the spec: a growing-phase node (spec section 3): owning
sample-index list, depth, gradient and hessian sums, best split found
(`none` = no split possible), links to children, leaf value. -/
structure Node where
  sample_indices : List ℕ
  depth : ℕ
  sum_gradients : ℚ
  sum_hessians : ℚ
  value : ℚ
  split_info : Option SplitInfo
  left_child : Option ℕ
  right_child : Option ℕ
deriving DecidableEq

/-- The default node used by out-of-range arena reads. -/
def defNode : Node :=
  { sample_indices := []
    depth := 0
    sum_gradients := 0
    sum_hessians := 0
    value := 0
    split_info := none
    left_child := none
    right_child := none }

/-- Modelled from the spec: the TreeGrower state (spec section 4.3): the node
arena (children referenced by index, spec section 9), the splittable-node
queue in insertion order, the finalized leaves, and the immutable inputs. -/
structure State where
  X : BinnedMatrix
  gradients : List ℚ
  hessians : Hessians
  cfg : Config
  nodes : List Node
  splittable : List ℕ
  finalized_leaves : List ℕ
deriving DecidableEq

/-- Arena read at index `j`. -/
def nget (s : State) (j : ℕ) : Node :=
  s.nodes.getD j defNode

/-- Modelled from the spec: node creation (spec section 4.3): record the
sample set, compute the gradient/hessian sums, the leaf value
`shrinkage * (-G / (H + lam))`, and evaluate the best split via the
Splitter. -/
def mkNode (s : State) (S : List ℕ) (depth : ℕ) : Node :=
  let G := gradSum s.gradients S
  let H := hessSum s.hessians S
  { sample_indices := S
    depth := depth
    sum_gradients := G
    sum_hessians := H
    value := s.cfg.shrinkage * (-G / (H + s.cfg.l2_reg))
    split_info := find_best_split s.cfg s.X s.gradients s.hessians S G H
    left_child := none
    right_child := none }

/-- Modelled from the spec: a node is splittable iff it has a best split whose
gain is not below `min_gain_to_split` (spec sections 4.3 and 8). -/
def splittableNode (cfg : Config) (nd : Node) : Bool :=
  match nd.split_info with
  | some si => decide (cfg.min_gain_to_split ≤ si.gain)
  | none => false

/-- Modelled from the spec: classify a node (spec section 4.3): enqueue it as
splittable, or finalize it as a leaf. -/
def enqueueOrFinalize (s : State) (idx : ℕ) : State :=
  if splittableNode s.cfg (nget s idx) then
    { s with splittable := s.splittable ++ [idx] }
  else
    { s with finalized_leaves := s.finalized_leaves ++ [idx] }

/-- Modelled from the spec: the arena rewrite of an applied split (spec
section 4.3): partition the sample set of node `p` by its stored
feature/threshold, append the two children to the arena, link them, and
dequeue `p`. -/
def applySplitCore (s : State) (p : ℕ) (si : SplitInfo) : State :=
  { s with
    nodes :=
      (s.nodes.set p
        { nget s p with
          left_child := some s.nodes.length
          right_child := some (s.nodes.length + 1) }) ++
      [mkNode s (leftSamples s.X (nget s p).sample_indices si.feature_idx si.bin_idx)
          ((nget s p).depth + 1),
       mkNode s (rightSamples s.X (nget s p).sample_indices si.feature_idx si.bin_idx)
          ((nget s p).depth + 1)]
    splittable := s.splittable.erase p }

/-- Modelled from the spec: apply the stored split of node `p` and classify
each of the two new children (spec section 4.3). -/
def applySplit (s : State) (p : ℕ) (si : SplitInfo) : State :=
  enqueueOrFinalize
    (enqueueOrFinalize (applySplitCore s p si) s.nodes.length)
    (s.nodes.length + 1)

/-- Gain of the best split stored at arena index `p` (0 when absent; queued
nodes always hold a split). -/
def nodeGain (s : State) (p : ℕ) : ℚ :=
  match (nget s p).split_info with
  | some si => si.gain
  | none => 0

/-- Modelled from the spec: `split_next` (spec section 4.3): dequeue the node
with the currently highest gain (ties: first inserted), fail (`none`) if none
is pending, apply its stored split and return the two child indices. -/
def split_next (s : State) : Option (State × ℕ × ℕ) :=
  match argmaxFirst (nodeGain s) s.splittable with
  | none => none
  | some p =>
    match (nget s p).split_info with
    | none => none
    | some si => some (applySplit s p si, s.nodes.length, s.nodes.length + 1)

/-- Modelled from the spec: `can_split_further` (spec section 4.3): true iff
the splittable-node queue is non-empty and the finalized-leaf count has not
reached `max_leaf_nodes` (when that limit is configured). -/
def can_split_further (s : State) : Bool :=
  !s.splittable.isEmpty &&
    (match s.cfg.max_leaf_nodes with
     | none => true
     | some m => decide (s.finalized_leaves.length < m))

/-- `k` bounded iterations of the growth loop: repeatedly call `split_next`
while `can_split_further` (spec section 4.3). -/
def growN : ℕ → State → State
  | 0, s => s
  | k + 1, s =>
    if can_split_further s then
      match split_next s with
      | some (s', _, _) => growN k s'
      | none => s
    else s

/-- Modelled from the spec: `grow()` runs the loop to exhaustion; each
iteration removes a queue entry, so a fuel larger than any possible number of
splits suffices. -/
def grow (s : State) : State :=
  growN (2 * s.X.n_samples + 1) s

/-- Modelled from the spec: the distinct, named configuration errors reported
eagerly at construction (spec section 7 and the messages asserted by
`test_init_parameters_validation`). -/
inductive GrowerError where
  | notBinnedDtype
  | notFortranContiguous
  | negativeMinGain
  | negativeMinHessian
deriving DecidableEq

/-- Modelled from the spec: TreeGrower construction (spec section 4.3):
validate the inputs (binned dtype, Fortran contiguity, non-negative
`min_gain_to_split` and `min_hessian_to_split`), create the root node over all
sample indices, evaluate its split, and enqueue it if splittable. -/
def initGrower (X : BinnedMatrix) (g : List ℚ) (h : Hessians) (cfg : Config) :
    Except GrowerError State :=
  if X.dtype_uint8 = false then .error .notBinnedDtype
  else if X.fortran = false then .error .notFortranContiguous
  else if cfg.min_gain_to_split < 0 then .error .negativeMinGain
  else if cfg.min_hessian_to_split < 0 then .error .negativeMinHessian
  else
    let s0 : State :=
      { X := X
        gradients := g
        hessians := h
        cfg := cfg
        nodes := []
        splittable := []
        finalized_leaves := [] }
    let root := mkNode s0 (List.range X.n_samples) 0
    .ok (enqueueOrFinalize { s0 with nodes := [root] } 0)

/-- Modelled from the spec: one record of the flat predictor node array
(spec section 3): leaf flag, feature index, bin threshold, child indices,
leaf value, sample count, gain. -/
structure PredictorNode where
  is_leaf : Bool
  feature_idx : ℕ
  bin_threshold : ℕ
  left_child_index : ℕ
  right_child_index : ℕ
  value : ℚ
  count : ℕ
  gain : ℚ
deriving DecidableEq

/-- The default predictor record used by out-of-range reads. -/
def defPNode : PredictorNode :=
  { is_leaf := true
    feature_idx := 0
    bin_threshold := 0
    left_child_index := 0
    right_child_index := 0
    value := 0
    count := 0
    gain := 0 }

/-- The grown node graph viewed as a finite tree (the arena's child links
unfolded; used to define the pre-order walk of `make_predictor`). -/
inductive GTree where
  | leaf (value : ℚ) (count : ℕ)
  | node (feature_idx bin_threshold : ℕ) (gain value : ℚ) (count : ℕ)
      (l r : GTree)

/-- Number of nodes of a finite tree. -/
def sizeT : GTree → ℕ
  | .leaf _ _ => 1
  | .node _ _ _ _ _ l r => 1 + sizeT l + sizeT r

/-- Read the node graph rooted at arena index `j` as a finite tree (`fuel`
bounds the depth; any fuel at least the arena size is enough because child
indices strictly exceed their parent's). -/
def toT (s : State) : ℕ → ℕ → GTree
  | 0, j => .leaf (nget s j).value (nget s j).sample_indices.length
  | fuel + 1, j =>
    match (nget s j).left_child, (nget s j).right_child, (nget s j).split_info with
    | some l, some r, some si =>
      .node si.feature_idx si.bin_idx si.gain (nget s j).value
        (nget s j).sample_indices.length (toT s fuel l) (toT s fuel r)
    | _, _, _ => .leaf (nget s j).value (nget s j).sample_indices.length

/-- Modelled from the spec: flatten a tree in pre-order starting at array
offset `base`; the root of the subtree lands at `base`, children always at
strictly larger indices (spec section 3, predictor node array). -/
def flattenT : GTree → ℕ → List PredictorNode
  | .leaf v c, _ =>
    [{ is_leaf := true
       feature_idx := 0
       bin_threshold := 0
       left_child_index := 0
       right_child_index := 0
       value := v
       count := c
       gain := 0 }]
  | .node f th gn v c l r, base =>
    let FL := flattenT l (base + 1)
    let FR := flattenT r (base + 1 + FL.length)
    { is_leaf := false
      feature_idx := f
      bin_threshold := th
      left_child_index := base + 1
      right_child_index := base + 1 + FL.length
      value := v
      count := c
      gain := gn } :: FL ++ FR

/-- The value stored at the root of a finite tree. -/
def valueT : GTree → ℚ
  | .leaf v _ => v
  | .node _ _ _ v _ _ _ => v

/-- The sample count stored at the root of a finite tree. -/
def countT : GTree → ℕ
  | .leaf _ c => c
  | .node _ _ _ _ c _ _ => c

/-- Tree-level traversal: at a decision node compare the row's bin value at
the node's feature to the bin threshold, going left on at most, right
otherwise; at a leaf return its value (spec section 4.4). -/
def predictT : GTree → List ℕ → ℚ
  | .leaf v _, _ => v
  | .node f th _ _ _ l r, row =>
    if row.getD f 0 ≤ th then predictT l row else predictT r row

/-- Modelled from the spec: `make_predictor` (spec section 4.3): walk the node
graph in pre-order, flattening it into the array form. -/
def make_predictor (s : State) : List PredictorNode :=
  flattenT (toT s s.nodes.length 0) 0

/-- Flat-array traversal with explicit fuel: starting at node index `j`,
repeatedly compare the row's bin value at the node's feature to the node's bin
threshold (at most: left child, else right child) until reaching a leaf, and
return that leaf's value (spec section 4.4). -/
def predictGo (ns : List PredictorNode) (row : List ℕ) : ℕ → ℕ → ℚ
  | 0, _ => 0
  | fuel + 1, j =>
    let nd := ns.getD j defPNode
    if nd.is_leaf then nd.value
    else if row.getD nd.feature_idx 0 ≤ nd.bin_threshold then
      predictGo ns row fuel nd.left_child_index
    else
      predictGo ns row fuel nd.right_child_index

/-- Modelled from the spec: `predict_binned` on one pre-binned row: top-down
traversal of the flat node array from the root at index 0
(spec section 4.4). -/
def predict_binned (ns : List PredictorNode) (row : List ℕ) : ℚ :=
  predictGo ns row ns.length 0

/-- Row `i` of the binned matrix: its bin value for each feature. -/
def rowOf (X : BinnedMatrix) (i : ℕ) : List ℕ :=
  X.cols.map (fun col => col.getD i 0)

/-- The child links and sample partition recorded at arena index `j`: either
the node has no children, or it has both, at strictly larger in-range indices,
holding exactly the two filtered halves of the parent's samples for the stored
split. -/
def ChildrenInv (s : State) (j : ℕ) : Prop :=
  ((nget s j).left_child = none ∧ (nget s j).right_child = none) ∨
  (∃ l r si, (nget s j).left_child = some l ∧ (nget s j).right_child = some r ∧
    (nget s j).split_info = some si ∧
    j < l ∧ l < s.nodes.length ∧ j < r ∧ r < s.nodes.length ∧
    (nget s l).sample_indices =
      leftSamples s.X (nget s j).sample_indices si.feature_idx si.bin_idx ∧
    (nget s r).sample_indices =
      rightSamples s.X (nget s j).sample_indices si.feature_idx si.bin_idx)

/-- Per-node invariant: sample indices are in range, the stored sums, value
and best split are the ones recomputable from the sample set, and the child
links satisfy `ChildrenInv`. -/
structure NodeInv (s : State) (j : ℕ) : Prop where
  samples_lt : ∀ i ∈ (nget s j).sample_indices, i < s.X.n_samples
  sum_g : (nget s j).sum_gradients = gradSum s.gradients (nget s j).sample_indices
  sum_h : (nget s j).sum_hessians = hessSum s.hessians (nget s j).sample_indices
  value_eq : (nget s j).value =
    s.cfg.shrinkage *
      (-(nget s j).sum_gradients / ((nget s j).sum_hessians + s.cfg.l2_reg))
  split_eq : (nget s j).split_info =
    find_best_split s.cfg s.X s.gradients s.hessians (nget s j).sample_indices
      (nget s j).sum_gradients (nget s j).sum_hessians
  children : ChildrenInv s j

/-- Grower-state invariant: established by construction and preserved by every
applied split. -/
structure Inv (s : State) : Prop where
  nonempty : 0 < s.nodes.length
  root_samples : (nget s 0).sample_indices = List.range s.X.n_samples
  node_inv : ∀ j, j < s.nodes.length → NodeInv s j
  queue_lt : ∀ p ∈ s.splittable, p < s.nodes.length
  queue_has_split : ∀ p ∈ s.splittable, ((nget s p).split_info).isSome = true
  queue_no_children : ∀ p ∈ s.splittable,
    (nget s p).left_child = none ∧ (nget s p).right_child = none
  queue_nodup : s.splittable.Nodup
  fin_lt : ∀ p ∈ s.finalized_leaves, p < s.nodes.length

/-- Two grower states that agree on everything except the hessian input. -/
def simState (s₁ s₂ : State) : Prop :=
  s₁.X = s₂.X ∧ s₁.gradients = s₂.gradients ∧ s₁.cfg = s₂.cfg ∧
  s₁.nodes = s₂.nodes ∧ s₁.splittable = s₂.splittable ∧
  s₁.finalized_leaves = s₂.finalized_leaves

/-- A tiny training set exercising a real split: one feature with bins
`[0,0,1,1]`, gradients `[1,1,-1,-1]` (squared loss from an all-zero initial
model with targets `[-1,-1,1,1]`). -/
def exCfg : Config :=
  { max_bins := 2
    shrinkage := 1
    min_samples_leaf := 1
    min_gain_to_split := 0
    min_hessian_to_split := 0
    max_leaf_nodes := none
    l2_reg := 0 }

/-- The binned matrix of the tiny example. -/
def exX : BinnedMatrix :=
  { dtype_uint8 := true, fortran := true, n_samples := 4, cols := [[0, 0, 1, 1]] }

/-- The gradients of the tiny example. -/
def exG : List ℚ := [1, 1, -1, -1]

/-- The fallback state used when destructuring a construction result. -/
def emptyState (X : BinnedMatrix) (g : List ℚ) (h : Hessians) (cfg : Config) :
    State :=
  { X := X
    gradients := g
    hessians := h
    cfg := cfg
    nodes := []
    splittable := []
    finalized_leaves := [] }

/-- The grower state constructed on the tiny example (constant hessians). -/
def exS0 : State :=
  match initGrower exX exG (Hessians.scalar 1) exCfg with
  | .ok s => s
  | .error _ => emptyState exX exG (Hessians.scalar 1) exCfg

/-- The grower state constructed on the tiny example with an explicit
all-ones hessian array. -/
def exS0ones : State :=
  match initGrower exX exG (Hessians.perSample (List.replicate 4 1)) exCfg with
  | .ok s => s
  | .error _ => emptyState exX exG (Hessians.perSample (List.replicate 4 1)) exCfg

/-- The targets of the tiny example (negated gradients of the squared loss at
the all-zero initial prediction). -/
def exT (i : ℕ) : ℚ := -(exG.getD i 0)

/-- A one-sample example whose root cannot be split
(`n_samples < 2 * min_samples_leaf`). -/
def exXsmall : BinnedMatrix :=
  { dtype_uint8 := true, fortran := true, n_samples := 1, cols := [[0]] }

/-- The grower state constructed on the one-sample example. -/
def exS0small : State :=
  match initGrower exXsmall [1] (Hessians.scalar 1) exCfg with
  | .ok s => s
  | .error _ => emptyState exXsmall [1] (Hessians.scalar 1) exCfg

/-- The tiny matrix with a non-quantized dtype (a float matrix). -/
def exXfloat : BinnedMatrix :=
  { dtype_uint8 := false, fortran := true, n_samples := 4, cols := [[0, 0, 1, 1]] }

/-- The tiny matrix in row-major (C-contiguous) layout. -/
def exXcArr : BinnedMatrix :=
  { dtype_uint8 := true, fortran := false, n_samples := 4, cols := [[0, 0, 1, 1]] }

/-- The tiny configuration with a negative `min_gain_to_split`. -/
def exCfgNegGain : Config :=
  { exCfg with min_gain_to_split := -1 }

/-- The tiny configuration with a negative `min_hessian_to_split`. -/
def exCfgNegHess : Config :=
  { exCfg with min_hessian_to_split := -1 }

/-- The best split found at the root of the tiny example. -/
def exSi : SplitInfo :=
  (find_best_split exCfg exX exG (Hessians.scalar 1) (List.range 4)
      (gradSum exG (List.range 4))
      (hessSum (Hessians.scalar 1) (List.range 4))).getD
    (mkSplitInfo exCfg exX exG (Hessians.scalar 1) (List.range 4) 0 4 (0, 0))

/-! ### List helpers -/

lemma getD_set_self {α : Type _} (l : List α) (m : ℕ) (a d : α)
    (h : m < l.length) : (l.set m a).getD m d = a := by
  simp [List.getD_eq_getElem?_getD, List.getElem?_set_self, h]

lemma getD_set_ne {α : Type _} (l : List α) (m j : ℕ) (a d : α)
    (h : m ≠ j) : (l.set m a).getD j d = l.getD j d := by
  simp [List.getD_eq_getElem?_getD, List.getElem?_set_ne h]

lemma length_filter_add_length_not {α : Type _} (p : α → Bool) (l : List α) :
    (l.filter p).length + (l.filter (fun a => !p a)).length = l.length := by
  induction l with
  | nil => simp
  | cons x xs ih =>
    by_cases hx : p x = true <;> simp [List.filter_cons, hx] <;> omega

lemma length_filter_not_eq_sub {α : Type _} (p : α → Bool) (l : List α) :
    (l.filter (fun a => !p a)).length = l.length - (l.filter p).length := by
  have := length_filter_add_length_not p l
  omega

lemma sum_map_const (l : List ℕ) (f : ℕ → ℚ) (c : ℚ)
    (h : ∀ a ∈ l, f a = c) : (l.map f).sum = l.length * c := by
  induction l with
  | nil => simp
  | cons x xs ih =>
    have hx := h x (by simp)
    have hxs := ih (fun a ha => h a (by simp [ha]))
    simp [hx, hxs]
    ring

lemma gradSum_const (g : List ℚ) (S : List ℕ) (c : ℚ)
    (h : ∀ a ∈ S, g.getD a 0 = c) : gradSum g S = S.length * c :=
  sum_map_const S _ c h

/-! ### First-argmax lemmas -/

lemma amFold_spec {α : Type _} (f : α → ℚ) : ∀ (xs : List α) (a : α),
    ∃ pre post, a :: xs = pre ++ amFold f a xs :: post ∧
      (∀ y ∈ pre, f y < f (amFold f a xs)) ∧
      (∀ y ∈ a :: xs, f y ≤ f (amFold f a xs)) := by
  intro xs
  induction xs with
  | nil =>
    intro a
    exact ⟨[], [], rfl, by simp, by simp [amFold]⟩
  | cons y ys ih =>
    intro a
    by_cases hb : f a < f y
    · have hfold : amFold f a (y :: ys) = amFold f y ys := by
        simp [amFold, hb]
      obtain ⟨pre, post, hdec, hpre, hall⟩ := ih y
      refine ⟨a :: pre, post, ?_, ?_, ?_⟩
      · rw [hfold]
        simpa using congrArg (a :: ·) hdec
      · intro z hz
        rw [hfold]
        rcases List.mem_cons.mp hz with hz | hz
        · subst hz
          exact lt_of_lt_of_le hb (hall y (by simp))
        · exact hpre z hz
      · intro z hz
        rw [hfold]
        rcases List.mem_cons.mp hz with hz | hz
        · subst hz
          exact le_of_lt (lt_of_lt_of_le hb (hall y (by simp)))
        · exact hall z hz
    · have hfold : amFold f a (y :: ys) = amFold f a ys := by
        simp [amFold, hb]
      obtain ⟨pre, post, hdec, hpre, hall⟩ := ih a
      have hy_le : f y ≤ f a := le_of_not_lt hb
      cases pre with
      | nil =>
        have hr : amFold f a ys = a := by
          have := hdec
          simp at this
          exact this.1.symm
        have hpost : ys = post := by
          have := hdec
          simp at this
          exact this.2
        refine ⟨[], y :: ys, ?_, by simp, ?_⟩
        · rw [hfold, hr]
          rfl
        · intro z hz
          rw [hfold, hr]
          rcases List.mem_cons.mp hz with hz | hz
          · subst hz; exact le_refl _
          · rcases List.mem_cons.mp hz with hz | hz
            · subst hz; exact hy_le
            · have := hall z (by simp [hz])
              rwa [hr] at this
      | cons a' pre' =>
        rw [List.cons_append] at hdec
        injection hdec with ha' hys
        refine ⟨a :: y :: pre', post, ?_, ?_, ?_⟩
        · rw [hfold]
          nth_rewrite 1 [hys]
          simp
        · intro z hz
          rw [hfold]
          have hfa : f a < f (amFold f a ys) := hpre a (by simp [ha'])
          rcases List.mem_cons.mp hz with hz | hz
          · rw [hz]; exact hfa
          · rcases List.mem_cons.mp hz with hz | hz
            · rw [hz]; exact lt_of_le_of_lt hy_le hfa
            · exact hpre z (by simp [hz])
        · intro z hz
          rw [hfold]
          rcases List.mem_cons.mp hz with hz | hz
          · rw [hz]; exact hall a (by simp)
          · rcases List.mem_cons.mp hz with hz | hz
            · rw [hz]; exact le_trans hy_le (hall a (by simp))
            · exact hall z (by simp [hz])

lemma argmaxFirst_none {α : Type _} (f : α → ℚ) (l : List α) :
    argmaxFirst f l = none ↔ l = [] := by
  cases l <;> simp [argmaxFirst]

lemma argmaxFirst_spec {α : Type _} (f : α → ℚ) (l : List α) (x : α)
    (h : argmaxFirst f l = some x) :
    ∃ pre post, l = pre ++ x :: post ∧ (∀ y ∈ pre, f y < f x) ∧
      ∀ y ∈ l, f y ≤ f x := by
  cases l with
  | nil => exact absurd h (by simp [argmaxFirst])
  | cons a xs =>
    have hx : amFold f a xs = x := by
      have := h
      simp [argmaxFirst] at this
      exact this
    obtain ⟨pre, post, hdec, hpre, hall⟩ := amFold_spec f xs a
    rw [hx] at hdec hpre hall
    exact ⟨pre, post, hdec, hpre, hall⟩

lemma argmaxFirst_mem {α : Type _} (f : α → ℚ) (l : List α) (x : α)
    (h : argmaxFirst f l = some x) : x ∈ l := by
  obtain ⟨pre, post, hdec, -, -⟩ := argmaxFirst_spec f l x h
  rw [hdec]
  simp

/-! ### Transition lemmas for `enqueueOrFinalize` and `applySplit` -/

@[simp] lemma enq_X (s : State) (idx : ℕ) :
    (enqueueOrFinalize s idx).X = s.X := by
  unfold enqueueOrFinalize; split <;> rfl

@[simp] lemma enq_gradients (s : State) (idx : ℕ) :
    (enqueueOrFinalize s idx).gradients = s.gradients := by
  unfold enqueueOrFinalize; split <;> rfl

@[simp] lemma enq_hessians (s : State) (idx : ℕ) :
    (enqueueOrFinalize s idx).hessians = s.hessians := by
  unfold enqueueOrFinalize; split <;> rfl

@[simp] lemma enq_cfg (s : State) (idx : ℕ) :
    (enqueueOrFinalize s idx).cfg = s.cfg := by
  unfold enqueueOrFinalize; split <;> rfl

@[simp] lemma enq_nodes (s : State) (idx : ℕ) :
    (enqueueOrFinalize s idx).nodes = s.nodes := by
  unfold enqueueOrFinalize; split <;> rfl

lemma enq_splittable_split (s : State) (idx : ℕ) :
    (splittableNode s.cfg (nget s idx) = true ∧
      (enqueueOrFinalize s idx).splittable = s.splittable ++ [idx] ∧
      (enqueueOrFinalize s idx).finalized_leaves = s.finalized_leaves) ∨
    (splittableNode s.cfg (nget s idx) = false ∧
      (enqueueOrFinalize s idx).splittable = s.splittable ∧
      (enqueueOrFinalize s idx).finalized_leaves = s.finalized_leaves ++ [idx]) := by
  unfold enqueueOrFinalize
  by_cases h : splittableNode s.cfg (nget s idx) = true
  · left; simp [h]
  · have hf : splittableNode s.cfg (nget s idx) = false := by
      simpa using h
    right; simp [hf]

@[simp] lemma applySplit_X (s : State) (p : ℕ) (si : SplitInfo) :
    (applySplit s p si).X = s.X := by
  simp [applySplit, applySplitCore]

@[simp] lemma applySplit_gradients (s : State) (p : ℕ) (si : SplitInfo) :
    (applySplit s p si).gradients = s.gradients := by
  simp [applySplit, applySplitCore]

@[simp] lemma applySplit_hessians (s : State) (p : ℕ) (si : SplitInfo) :
    (applySplit s p si).hessians = s.hessians := by
  simp [applySplit, applySplitCore]

@[simp] lemma applySplit_cfg (s : State) (p : ℕ) (si : SplitInfo) :
    (applySplit s p si).cfg = s.cfg := by
  simp [applySplit, applySplitCore]

lemma applySplit_nodes (s : State) (p : ℕ) (si : SplitInfo) :
    (applySplit s p si).nodes =
      (s.nodes.set p
        { nget s p with
          left_child := some s.nodes.length
          right_child := some (s.nodes.length + 1) }) ++
      [mkNode s (leftSamples s.X (nget s p).sample_indices si.feature_idx si.bin_idx)
          ((nget s p).depth + 1),
       mkNode s (rightSamples s.X (nget s p).sample_indices si.feature_idx si.bin_idx)
          ((nget s p).depth + 1)] := by
  simp [applySplit, applySplitCore]

@[simp] lemma applySplit_length (s : State) (p : ℕ) (si : SplitInfo) :
    (applySplit s p si).nodes.length = s.nodes.length + 2 := by
  rw [applySplit_nodes]
  simp

lemma nget_applySplit (s : State) (p : ℕ) (si : SplitInfo)
    (hp : p < s.nodes.length) (j : ℕ) :
    nget (applySplit s p si) j =
      if j = p then
        { nget s p with
          left_child := some s.nodes.length
          right_child := some (s.nodes.length + 1) }
      else if j = s.nodes.length then
        mkNode s (leftSamples s.X (nget s p).sample_indices si.feature_idx si.bin_idx)
          ((nget s p).depth + 1)
      else if j = s.nodes.length + 1 then
        mkNode s (rightSamples s.X (nget s p).sample_indices si.feature_idx si.bin_idx)
          ((nget s p).depth + 1)
      else nget s j := by
  have hng : nget (applySplit s p si) j =
      (applySplit s p si).nodes.getD j defNode := rfl
  rw [hng, applySplit_nodes]
  by_cases hjp : j = p
  · subst hjp
    rw [List.getD_append _ _ _ _ (by simp [hp]), if_pos rfl]
    exact getD_set_self _ _ _ _ hp
  · rw [if_neg hjp]
    by_cases hjl : j = s.nodes.length
    · subst hjl
      rw [List.getD_append_right _ _ _ _ (by simp), if_pos rfl]
      simp
    · rw [if_neg hjl]
      by_cases hjr : j = s.nodes.length + 1
      · subst hjr
        rw [List.getD_append_right _ _ _ _ (by simp), if_pos rfl]
        simp
      · rw [if_neg hjr]
        by_cases hlt : j < s.nodes.length
        · rw [List.getD_append _ _ _ _ (by simp [hlt])]
          exact getD_set_ne _ _ _ _ _ (fun h => hjp h.symm)
        · have hng2 : nget s j = s.nodes.getD j defNode := rfl
          rw [hng2, List.getD_append_right _ _ _ _ (by simp; omega)]
          rw [List.getD_eq_default _ _ (by simp; omega),
            List.getD_eq_default _ _ (by omega)]

lemma nget_applySplit_samples (s : State) (p : ℕ) (si : SplitInfo)
    (hp : p < s.nodes.length) (j : ℕ) (hj : j < s.nodes.length) :
    (nget (applySplit s p si) j).sample_indices = (nget s j).sample_indices := by
  rw [nget_applySplit s p si hp j]
  by_cases hjp : j = p
  · simp [hjp]
  · rw [if_neg hjp, if_neg (by omega), if_neg (by omega)]

lemma nget_applySplit_keep (s : State) (p : ℕ) (si : SplitInfo)
    (hp : p < s.nodes.length) (j : ℕ) (hj : j < s.nodes.length) :
    (nget (applySplit s p si) j).sample_indices = (nget s j).sample_indices ∧
    (nget (applySplit s p si) j).sum_gradients = (nget s j).sum_gradients ∧
    (nget (applySplit s p si) j).sum_hessians = (nget s j).sum_hessians ∧
    (nget (applySplit s p si) j).value = (nget s j).value ∧
    (nget (applySplit s p si) j).split_info = (nget s j).split_info := by
  rw [nget_applySplit s p si hp j]
  by_cases hjp : j = p
  · simp [hjp]
  · rw [if_neg hjp, if_neg (by omega), if_neg (by omega)]
    exact ⟨rfl, rfl, rfl, rfl, rfl⟩

lemma split_next_some (s s' : State) (l r : ℕ)
    (h : split_next s = some (s', l, r)) :
    ∃ p si, argmaxFirst (nodeGain s) s.splittable = some p ∧
      (nget s p).split_info = some si ∧ s' = applySplit s p si ∧
      l = s.nodes.length ∧ r = s.nodes.length + 1 := by
  unfold split_next at h
  cases ham : argmaxFirst (nodeGain s) s.splittable with
  | none => rw [ham] at h; exact absurd h (by simp)
  | some p =>
    rw [ham] at h
    simp only [Option.some.injEq] at h
    cases hsi : (nget s p).split_info with
    | none => simp [hsi] at h
    | some si =>
      simp only [hsi] at h
      simp at h
      exact ⟨p, si, rfl, hsi, h.1.symm, h.2.1.symm, h.2.2.symm⟩

lemma split_next_none_iff (s : State) (hInv : Inv s) :
    split_next s = none ↔ s.splittable = [] := by
  constructor
  · intro hnone
    by_contra hne
    cases hq : s.splittable with
    | nil => exact hne hq
    | cons a as =>
      have ham : argmaxFirst (nodeGain s) s.splittable =
          some (amFold (nodeGain s) a as) := by
        rw [hq]; rfl
      have hmem := argmaxFirst_mem _ _ _ ham
      have hsome := hInv.queue_has_split _ hmem
      unfold split_next at hnone
      rw [ham] at hnone
      cases hsi : (nget s (amFold (nodeGain s) a as)).split_info with
      | none => rw [hsi] at hsome; simp at hsome
      | some si =>
        simp only [hsi] at hnone
        exact absurd hnone (by simp)
  · intro hempty
    unfold split_next
    rw [hempty]
    rfl

lemma split_next_fields (s s' : State) (l r : ℕ)
    (h : split_next s = some (s', l, r)) :
    s'.X = s.X ∧ s'.gradients = s.gradients ∧ s'.hessians = s.hessians ∧
      s'.cfg = s.cfg := by
  obtain ⟨p, si, -, -, hs', -, -⟩ := split_next_some s s' l r h
  subst hs'
  simp

lemma growN_fields (k : ℕ) (s : State) :
    (growN k s).X = s.X ∧ (growN k s).gradients = s.gradients ∧
      (growN k s).hessians = s.hessians ∧ (growN k s).cfg = s.cfg := by
  induction k generalizing s with
  | zero => exact ⟨rfl, rfl, rfl, rfl⟩
  | succ k ih =>
    unfold growN
    by_cases h : can_split_further s = true
    · rw [if_pos h]
      cases hsn : split_next s with
      | none => exact ⟨rfl, rfl, rfl, rfl⟩
      | some t =>
        obtain ⟨s', l, r⟩ := t
        obtain ⟨h1, h2, h3, h4⟩ := split_next_fields s s' l r hsn
        obtain ⟨g1, g2, g3, g4⟩ := ih s'
        exact ⟨g1.trans h1, g2.trans h2, g3.trans h3, g4.trans h4⟩
    · rw [if_neg h]
      exact ⟨rfl, rfl, rfl, rfl⟩

/-! ### Splitter lemmas -/

lemma mem_binsFor (cfg : Config) (f : ℕ) (c : ℕ × ℕ) :
    c ∈ binsFor cfg f ↔ c.1 = f ∧ c.2 < cfg.max_bins := by
  obtain ⟨a, b⟩ := c
  simp only [binsFor, List.mem_map, List.mem_range, Prod.mk.injEq]
  constructor
  · rintro ⟨t, ht, rfl, rfl⟩
    exact ⟨rfl, ht⟩
  · rintro ⟨rfl, hb⟩
    exact ⟨b, hb, rfl, rfl⟩

lemma mem_scanCandidates (cfg : Config) (X : BinnedMatrix) (c : ℕ × ℕ) :
    c ∈ scanCandidates cfg X ↔
      c.1 < X.cols.length ∧ c.2 < cfg.max_bins := by
  simp only [scanCandidates, List.mem_flatMap, List.mem_range]
  constructor
  · rintro ⟨f, hf, hc⟩
    obtain ⟨h1, h2⟩ := (mem_binsFor cfg f c).mp hc
    exact ⟨h1 ▸ hf, h2⟩
  · rintro ⟨h1, h2⟩
    exact ⟨c.1, h1, (mem_binsFor cfg c.1 c).mpr ⟨rfl, h2⟩⟩

lemma scanRank_pairwise (cfg : Config) (nf : ℕ) :
    List.Pairwise (fun a b => scanRank cfg a < scanRank cfg b)
      ((List.range nf).flatMap (binsFor cfg)) := by
  induction nf with
  | zero => simp
  | succ n ih =>
    rw [List.range_succ, List.flatMap_append, List.pairwise_append]
    have hsingle : ([n] : List ℕ).flatMap (binsFor cfg) = binsFor cfg n := by
      simp
    refine ⟨ih, ?_, ?_⟩
    · rw [hsingle]
      unfold binsFor
      rw [List.pairwise_map]
      refine (List.pairwise_lt_range cfg.max_bins).imp ?_
      intro a b hab
      simp only [scanRank]
      omega
    · intro a ha b hb
      rw [hsingle] at hb
      have hamem : a.1 < n ∧ a.2 < cfg.max_bins := by
        simp only [List.mem_flatMap, List.mem_range] at ha
        obtain ⟨f, hf, hc⟩ := ha
        obtain ⟨h1, h2⟩ := (mem_binsFor cfg f a).mp hc
        exact ⟨h1 ▸ hf, h2⟩
      obtain ⟨hb1, hb2⟩ := (mem_binsFor cfg n b).mp hb
      simp only [scanRank, hb1]
      calc a.1 * cfg.max_bins + a.2
          < a.1 * cfg.max_bins + cfg.max_bins :=
            Nat.add_lt_add_left hamem.2 _
        _ = (a.1 + 1) * cfg.max_bins := by ring
        _ ≤ n * cfg.max_bins :=
            Nat.mul_le_mul_right _ (Nat.succ_le_of_lt hamem.1)
        _ ≤ n * cfg.max_bins + b.2 := Nat.le_add_right _ _

lemma scan_pairwise (cfg : Config) (X : BinnedMatrix) :
    List.Pairwise (fun a b => scanRank cfg a < scanRank cfg b)
      (scanCandidates cfg X) :=
  scanRank_pairwise cfg X.cols.length

lemma fbs_none_iff (cfg : Config) (X : BinnedMatrix) (g : List ℚ)
    (h : Hessians) (S : List ℕ) (G H : ℚ) :
    find_best_split cfg X g h S G H = none ↔
      ∀ c ∈ scanCandidates cfg X, candAccepted cfg X h S H c = false := by
  unfold find_best_split
  rw [Option.map_eq_none', argmaxFirst_none, List.filter_eq_nil_iff]
  constructor
  · intro hall c hc
    simpa using hall c hc
  · intro hall c hc
    simp [hall c hc]

lemma mkSplitInfo_feature (cfg : Config) (X : BinnedMatrix) (g : List ℚ)
    (h : Hessians) (S : List ℕ) (G H : ℚ) (c : ℕ × ℕ) :
    (mkSplitInfo cfg X g h S G H c).feature_idx = c.1 ∧
    (mkSplitInfo cfg X g h S G H c).bin_idx = c.2 ∧
    (mkSplitInfo cfg X g h S G H c).n_samples_left =
      (leftSamples X S c.1 c.2).length ∧
    (mkSplitInfo cfg X g h S G H c).n_samples_right =
      S.length - (leftSamples X S c.1 c.2).length ∧
    (mkSplitInfo cfg X g h S G H c).gain = candGain cfg X g h S G H c :=
  ⟨rfl, rfl, rfl, rfl, rfl⟩

lemma fbs_some_spec (cfg : Config) (X : BinnedMatrix) (g : List ℚ)
    (h : Hessians) (S : List ℕ) (G H : ℚ) (si : SplitInfo)
    (hsome : find_best_split cfg X g h S G H = some si) :
    ∃ c, c ∈ scanCandidates cfg X ∧ candAccepted cfg X h S H c = true ∧
      si = mkSplitInfo cfg X g h S G H c ∧
      (∀ c' ∈ scanCandidates cfg X, candAccepted cfg X h S H c' = true →
        candGain cfg X g h S G H c' ≤ candGain cfg X g h S G H c) ∧
      (∀ c' ∈ scanCandidates cfg X, candAccepted cfg X h S H c' = true →
        candGain cfg X g h S G H c' = candGain cfg X g h S G H c →
        scanRank cfg c ≤ scanRank cfg c') := by
  unfold find_best_split at hsome
  rw [Option.map_eq_some'] at hsome
  obtain ⟨c, hc, hmk⟩ := hsome
  obtain ⟨pre, post, hdec, hpre, hall⟩ :=
    argmaxFirst_spec (candGain cfg X g h S G H) _ c hc
  have hcmem : c ∈ (scanCandidates cfg X).filter (candAccepted cfg X h S H) := by
    rw [hdec]; simp
  have hcscan := List.mem_filter.mp hcmem
  have hpw := (scan_pairwise cfg X).filter (candAccepted cfg X h S H)
  rw [hdec] at hpw
  refine ⟨c, hcscan.1, hcscan.2, hmk.symm, ?_, ?_⟩
  · intro c' hc' hacc
    exact hall c' (List.mem_filter.mpr ⟨hc', hacc⟩)
  · intro c' hc' hacc heq
    have hc'mem : c' ∈ pre ++ c :: post := by
      rw [← hdec]
      exact List.mem_filter.mpr ⟨hc', hacc⟩
    rcases List.mem_append.mp hc'mem with hc'pre | hc'tl
    · exact absurd heq (ne_of_lt (hpre c' hc'pre))
    · rcases List.mem_cons.mp hc'tl with hc'eq | hc'post
      · rw [hc'eq]
      · have := (List.pairwise_append.mp hpw).2.1
        rw [List.pairwise_cons] at this
        exact le_of_lt (this.1 c' hc'post)

/-! ### Node reads after an applied split -/

lemma splittableNode_isSome (cfg : Config) (nd : Node)
    (h : splittableNode cfg nd = true) : nd.split_info.isSome = true := by
  unfold splittableNode at h
  cases hsi : nd.split_info with
  | none => rw [hsi] at h; simp at h
  | some si => simp [hsi]

lemma nget_enq (s : State) (idx j : ℕ) :
    nget (enqueueOrFinalize s idx) j = nget s j := by
  unfold nget; rw [enq_nodes]

@[simp] lemma core_cfg (s : State) (p : ℕ) (si : SplitInfo) :
    (applySplitCore s p si).cfg = s.cfg := rfl

@[simp] lemma core_splittable (s : State) (p : ℕ) (si : SplitInfo) :
    (applySplitCore s p si).splittable = s.splittable.erase p := rfl

@[simp] lemma core_fin (s : State) (p : ℕ) (si : SplitInfo) :
    (applySplitCore s p si).finalized_leaves = s.finalized_leaves := rfl

lemma applySplit_nget_core (s : State) (p : ℕ) (si : SplitInfo) (j : ℕ) :
    nget (applySplit s p si) j = nget (applySplitCore s p si) j := by
  unfold applySplit; rw [nget_enq, nget_enq]

lemma nget_applySplit_parent (s : State) (p : ℕ) (si : SplitInfo)
    (hp : p < s.nodes.length) :
    nget (applySplit s p si) p =
      { nget s p with
        left_child := some s.nodes.length
        right_child := some (s.nodes.length + 1) } := by
  have h := nget_applySplit s p si hp p
  rwa [if_pos rfl] at h

lemma nget_applySplit_leftChild (s : State) (p : ℕ) (si : SplitInfo)
    (hp : p < s.nodes.length) :
    nget (applySplit s p si) s.nodes.length =
      mkNode s (leftSamples s.X (nget s p).sample_indices si.feature_idx si.bin_idx)
        ((nget s p).depth + 1) := by
  have h := nget_applySplit s p si hp s.nodes.length
  rwa [if_neg (by omega), if_pos rfl] at h

lemma nget_applySplit_rightChild (s : State) (p : ℕ) (si : SplitInfo)
    (hp : p < s.nodes.length) :
    nget (applySplit s p si) (s.nodes.length + 1) =
      mkNode s (rightSamples s.X (nget s p).sample_indices si.feature_idx si.bin_idx)
        ((nget s p).depth + 1) := by
  have h := nget_applySplit s p si hp (s.nodes.length + 1)
  rwa [if_neg (by omega), if_neg (by omega), if_pos rfl] at h

lemma nget_applySplit_old (s : State) (p : ℕ) (si : SplitInfo)
    (hp : p < s.nodes.length) (j : ℕ) (hj : j < s.nodes.length) (hne : j ≠ p) :
    nget (applySplit s p si) j = nget s j := by
  have h := nget_applySplit s p si hp j
  rwa [if_neg hne, if_neg (by omega), if_neg (by omega)] at h

lemma applySplit_queue (s : State) (p : ℕ) (si : SplitInfo)
    (hp : p < s.nodes.length) :
    (applySplit s p si).splittable =
      (s.splittable.erase p ++
        (if splittableNode s.cfg (nget (applySplit s p si) s.nodes.length) = true
          then [s.nodes.length] else [])) ++
      (if splittableNode s.cfg (nget (applySplit s p si) (s.nodes.length + 1)) = true
        then [s.nodes.length + 1] else []) ∧
    (applySplit s p si).finalized_leaves =
      (s.finalized_leaves ++
        (if splittableNode s.cfg (nget (applySplit s p si) s.nodes.length) = true
          then [] else [s.nodes.length])) ++
      (if splittableNode s.cfg (nget (applySplit s p si) (s.nodes.length + 1)) = true
        then [] else [s.nodes.length + 1]) := by
  have hng1 : nget (applySplitCore s p si) s.nodes.length =
      nget (applySplit s p si) s.nodes.length :=
    (applySplit_nget_core s p si _).symm
  have hng2 : nget (enqueueOrFinalize (applySplitCore s p si) s.nodes.length)
      (s.nodes.length + 1) = nget (applySplit s p si) (s.nodes.length + 1) := by
    rw [nget_enq]
    exact (applySplit_nget_core s p si _).symm
  rcases enq_splittable_split (applySplitCore s p si) s.nodes.length with
    ⟨hc1, hq1, hf1⟩ | ⟨hc1, hq1, hf1⟩ <;>
  rcases enq_splittable_split
      (enqueueOrFinalize (applySplitCore s p si) s.nodes.length)
      (s.nodes.length + 1) with ⟨hc2, hq2, hf2⟩ | ⟨hc2, hq2, hf2⟩
  · have hcL : splittableNode s.cfg (nget (applySplit s p si) s.nodes.length)
        = true := by rw [← hng1]; exact hc1
    have hcR : splittableNode s.cfg
        (nget (applySplit s p si) (s.nodes.length + 1)) = true := by
      rw [enq_cfg, core_cfg] at hc2
      rw [← hng2]; exact hc2
    have hsp : (applySplit s p si).splittable =
        (enqueueOrFinalize (enqueueOrFinalize (applySplitCore s p si)
          s.nodes.length) (s.nodes.length + 1)).splittable := rfl
    have hfn : (applySplit s p si).finalized_leaves =
        (enqueueOrFinalize (enqueueOrFinalize (applySplitCore s p si)
          s.nodes.length) (s.nodes.length + 1)).finalized_leaves := rfl
    rw [hsp, hfn, hq2, hq1, core_splittable, hf2, hf1, core_fin,
      if_pos hcL, if_pos hcR, if_pos hcL, if_pos hcR]
    constructor <;> simp
  · have hcL : splittableNode s.cfg (nget (applySplit s p si) s.nodes.length)
        = true := by rw [← hng1]; exact hc1
    have hcR : splittableNode s.cfg
        (nget (applySplit s p si) (s.nodes.length + 1)) = false := by
      rw [enq_cfg, core_cfg] at hc2
      rw [← hng2]; exact hc2
    have hsp : (applySplit s p si).splittable =
        (enqueueOrFinalize (enqueueOrFinalize (applySplitCore s p si)
          s.nodes.length) (s.nodes.length + 1)).splittable := rfl
    have hfn : (applySplit s p si).finalized_leaves =
        (enqueueOrFinalize (enqueueOrFinalize (applySplitCore s p si)
          s.nodes.length) (s.nodes.length + 1)).finalized_leaves := rfl
    rw [hsp, hfn, hq2, hq1, core_splittable, hf2, hf1, core_fin,
      if_pos hcL, if_neg (by simp [hcR]), if_pos hcL, if_neg (by simp [hcR])]
    constructor <;> simp
  · have hcL : splittableNode s.cfg (nget (applySplit s p si) s.nodes.length)
        = false := by rw [← hng1]; exact hc1
    have hcR : splittableNode s.cfg
        (nget (applySplit s p si) (s.nodes.length + 1)) = true := by
      rw [enq_cfg, core_cfg] at hc2
      rw [← hng2]; exact hc2
    have hsp : (applySplit s p si).splittable =
        (enqueueOrFinalize (enqueueOrFinalize (applySplitCore s p si)
          s.nodes.length) (s.nodes.length + 1)).splittable := rfl
    have hfn : (applySplit s p si).finalized_leaves =
        (enqueueOrFinalize (enqueueOrFinalize (applySplitCore s p si)
          s.nodes.length) (s.nodes.length + 1)).finalized_leaves := rfl
    rw [hsp, hfn, hq2, hq1, core_splittable, hf2, hf1, core_fin,
      if_neg (by simp [hcL]), if_pos hcR, if_neg (by simp [hcL]), if_pos hcR]
    constructor <;> simp
  · have hcL : splittableNode s.cfg (nget (applySplit s p si) s.nodes.length)
        = false := by rw [← hng1]; exact hc1
    have hcR : splittableNode s.cfg
        (nget (applySplit s p si) (s.nodes.length + 1)) = false := by
      rw [enq_cfg, core_cfg] at hc2
      rw [← hng2]; exact hc2
    have hsp : (applySplit s p si).splittable =
        (enqueueOrFinalize (enqueueOrFinalize (applySplitCore s p si)
          s.nodes.length) (s.nodes.length + 1)).splittable := rfl
    have hfn : (applySplit s p si).finalized_leaves =
        (enqueueOrFinalize (enqueueOrFinalize (applySplitCore s p si)
          s.nodes.length) (s.nodes.length + 1)).finalized_leaves := rfl
    rw [hsp, hfn, hq2, hq1, core_splittable, hf2, hf1, core_fin,
      if_neg (by simp [hcL]), if_neg (by simp [hcR]), if_neg (by simp [hcL]), if_neg (by simp [hcR])]
    constructor <;> simp

/-! ### The grower invariant: establishment and preservation -/

lemma inv_mk (X : BinnedMatrix) (g : List ℚ) (h : Hessians) (cfg : Config) :
    Inv (enqueueOrFinalize
      { emptyState X g h cfg with
        nodes := [mkNode (emptyState X g h cfg) (List.range X.n_samples) 0] } 0) := by
  have hroot : nget (enqueueOrFinalize
      { emptyState X g h cfg with
        nodes := [mkNode (emptyState X g h cfg) (List.range X.n_samples) 0] } 0) 0 =
      mkNode (emptyState X g h cfg) (List.range X.n_samples) 0 := by
    rw [nget_enq]; rfl
  refine ⟨?_, ?_, ?_, ?_, ?_, ?_, ?_, ?_⟩
  · rw [enq_nodes]; simp
  · rw [hroot, enq_X]; rfl
  · intro j hj
    rw [enq_nodes] at hj
    have hj0 : j = 0 := by
      simp at hj
      omega
    subst hj0
    refine ⟨?_, ?_, ?_, ?_, ?_, ?_⟩
    · intro i hi
      rw [hroot] at hi
      rw [enq_X]
      exact List.mem_range.mp hi
    · rw [hroot, enq_gradients]; rfl
    · rw [hroot, enq_hessians]; rfl
    · rw [hroot, enq_cfg]; rfl
    · rw [hroot, enq_cfg, enq_X, enq_gradients, enq_hessians]; rfl
    · exact Or.inl ⟨by rw [hroot]; rfl, by rw [hroot]; rfl⟩
  · intro p hp
    rcases enq_splittable_split
      { emptyState X g h cfg with
        nodes := [mkNode (emptyState X g h cfg) (List.range X.n_samples) 0] } 0 with
      ⟨hc, hq, -⟩ | ⟨hc, hq, -⟩ <;> rw [hq] at hp
    · rw [enq_nodes]
      simp [emptyState] at hp ⊢
      omega
    · simp [emptyState] at hp
  · intro p hp
    rcases enq_splittable_split
      { emptyState X g h cfg with
        nodes := [mkNode (emptyState X g h cfg) (List.range X.n_samples) 0] } 0 with
      ⟨hc, hq, -⟩ | ⟨hc, hq, -⟩ <;> rw [hq] at hp
    · simp [emptyState] at hp
      subst hp
      rw [nget_enq]
      exact splittableNode_isSome _ _ hc
    · simp [emptyState] at hp
  · intro p hp
    rcases enq_splittable_split
      { emptyState X g h cfg with
        nodes := [mkNode (emptyState X g h cfg) (List.range X.n_samples) 0] } 0 with
      ⟨hc, hq, -⟩ | ⟨hc, hq, -⟩ <;> rw [hq] at hp
    · simp [emptyState] at hp
      subst hp
      exact ⟨by rw [hroot]; rfl, by rw [hroot]; rfl⟩
    · simp [emptyState] at hp
  · rcases enq_splittable_split
      { emptyState X g h cfg with
        nodes := [mkNode (emptyState X g h cfg) (List.range X.n_samples) 0] } 0 with
      ⟨hc, hq, -⟩ | ⟨hc, hq, -⟩ <;> rw [hq] <;> simp [emptyState]
  · intro p hp
    rcases enq_splittable_split
      { emptyState X g h cfg with
        nodes := [mkNode (emptyState X g h cfg) (List.range X.n_samples) 0] } 0 with
      ⟨hc, hq, hf⟩ | ⟨hc, hq, hf⟩ <;> rw [hf] at hp
    · simp [emptyState] at hp
    · rw [enq_nodes]
      simp [emptyState] at hp ⊢
      omega

lemma initGrower_ok_eq (X : BinnedMatrix) (g : List ℚ) (h : Hessians)
    (cfg : Config) (s : State) (hok : initGrower X g h cfg = .ok s) :
    s = enqueueOrFinalize
      { emptyState X g h cfg with
        nodes := [mkNode (emptyState X g h cfg) (List.range X.n_samples) 0] } 0 := by
  unfold initGrower at hok
  by_cases h1 : X.dtype_uint8 = false
  · rw [if_pos h1] at hok; exact absurd hok (by simp)
  · rw [if_neg h1] at hok
    by_cases h2 : X.fortran = false
    · rw [if_pos h2] at hok; exact absurd hok (by simp)
    · rw [if_neg h2] at hok
      by_cases h3 : cfg.min_gain_to_split < 0
      · rw [if_pos h3] at hok; exact absurd hok (by simp)
      · rw [if_neg h3] at hok
        by_cases h4 : cfg.min_hessian_to_split < 0
        · rw [if_pos h4] at hok; exact absurd hok (by simp)
        · rw [if_neg h4] at hok
          simp only [Except.ok.injEq] at hok
          exact hok.symm

lemma inv_init (X : BinnedMatrix) (g : List ℚ) (h : Hessians) (cfg : Config)
    (s : State) (hok : initGrower X g h cfg = .ok s) : Inv s := by
  rw [initGrower_ok_eq X g h cfg s hok]
  exact inv_mk X g h cfg

lemma inv_split_next (s s' : State) (l r : ℕ) (hInv : Inv s)
    (h : split_next s = some (s', l, r)) : Inv s' := by
  obtain ⟨p, si, ham, hsi, hs', hl, hr⟩ := split_next_some s s' l r h
  subst hs'
  have hpmem := argmaxFirst_mem _ _ _ ham
  have hp : p < s.nodes.length := hInv.queue_lt p hpmem
  have hlen := applySplit_length s p si
  have hXs := applySplit_X s p si
  have hgs := applySplit_gradients s p si
  have hhs := applySplit_hessians s p si
  have hcs := applySplit_cfg s p si
  have hngL := nget_applySplit_leftChild s p si hp
  have hngR := nget_applySplit_rightChild s p si hp
  have hngP := nget_applySplit_parent s p si hp
  obtain ⟨hqchar, hfchar⟩ := applySplit_queue s p si hp
  refine ⟨?_, ?_, ?_, ?_, ?_, ?_, ?_, ?_⟩
  · rw [hlen]; omega
  · rw [hXs, nget_applySplit_samples s p si hp 0 hInv.nonempty,
      hInv.root_samples]
  · intro j hj
    rw [hlen] at hj
    by_cases hjp : j = p
    · subst hjp
      refine ⟨?_, ?_, ?_, ?_, ?_, ?_⟩
      · intro i hi
        rw [hngP] at hi
        rw [hXs]
        exact (hInv.node_inv j hp).samples_lt i hi
      · rw [hngP, hgs]
        exact (hInv.node_inv j hp).sum_g
      · rw [hngP, hhs]
        exact (hInv.node_inv j hp).sum_h
      · rw [hngP, hcs]
        exact (hInv.node_inv j hp).value_eq
      · rw [hngP, hcs, hXs, hgs, hhs]
        exact (hInv.node_inv j hp).split_eq
      · refine Or.inr ⟨s.nodes.length, s.nodes.length + 1, si, ?_, ?_, ?_,
          ?_, ?_, ?_, ?_, ?_, ?_⟩
        · rw [hngP]
        · rw [hngP]
        · rw [hngP]; exact hsi
        · exact hp
        · rw [hlen]; omega
        · omega
        · rw [hlen]; omega
        · rw [hngL, hngP, hXs]; rfl
        · rw [hngR, hngP, hXs]; rfl
    · by_cases hjL : j = s.nodes.length
      · subst hjL
        refine ⟨?_, ?_, ?_, ?_, ?_, ?_⟩
        · intro i hi
          rw [hngL] at hi
          rw [hXs]
          exact (hInv.node_inv p hp).samples_lt i (List.mem_filter.mp hi).1
        · rw [hngL, hgs]; rfl
        · rw [hngL, hhs]; rfl
        · rw [hngL, hcs]; rfl
        · rw [hngL, hcs, hXs, hgs, hhs]; rfl
        · exact Or.inl ⟨by rw [hngL]; rfl, by rw [hngL]; rfl⟩
      · by_cases hjR : j = s.nodes.length + 1
        · subst hjR
          refine ⟨?_, ?_, ?_, ?_, ?_, ?_⟩
          · intro i hi
            rw [hngR] at hi
            rw [hXs]
            exact (hInv.node_inv p hp).samples_lt i (List.mem_filter.mp hi).1
          · rw [hngR, hgs]; rfl
          · rw [hngR, hhs]; rfl
          · rw [hngR, hcs]; rfl
          · rw [hngR, hcs, hXs, hgs, hhs]; rfl
          · exact Or.inl ⟨by rw [hngR]; rfl, by rw [hngR]; rfl⟩
        · have hjlt : j < s.nodes.length := by omega
          have hkeep := nget_applySplit_old s p si hp j hjlt hjp
          refine ⟨?_, ?_, ?_, ?_, ?_, ?_⟩
          · intro i hi
            rw [hkeep] at hi
            rw [hXs]
            exact (hInv.node_inv j hjlt).samples_lt i hi
          · rw [hkeep, hgs]
            exact (hInv.node_inv j hjlt).sum_g
          · rw [hkeep, hhs]
            exact (hInv.node_inv j hjlt).sum_h
          · rw [hkeep, hcs]
            exact (hInv.node_inv j hjlt).value_eq
          · rw [hkeep, hcs, hXs, hgs, hhs]
            exact (hInv.node_inv j hjlt).split_eq
          · rcases (hInv.node_inv j hjlt).children with ⟨hL, hR⟩ |
              ⟨l0, r0, si0, hl0, hr0, hsi0, hjl0, hl0lt, hjr0, hr0lt, hsl, hsr⟩
            · exact Or.inl ⟨by rw [hkeep]; exact hL, by rw [hkeep]; exact hR⟩
            · refine Or.inr ⟨l0, r0, si0, ?_, ?_, ?_, hjl0, ?_, hjr0, ?_, ?_, ?_⟩
              · rw [hkeep]; exact hl0
              · rw [hkeep]; exact hr0
              · rw [hkeep]; exact hsi0
              · rw [hlen]; omega
              · rw [hlen]; omega
              · rw [nget_applySplit_samples s p si hp l0 hl0lt, hkeep, hXs]
                exact hsl
              · rw [nget_applySplit_samples s p si hp r0 hr0lt, hkeep, hXs]
                exact hsr
  · intro q hq
    rw [hqchar] at hq
    rw [hlen]
    rcases List.mem_append.mp hq with hq | hq
    · rcases List.mem_append.mp hq with hq | hq
      · have := hInv.queue_lt q (List.erase_subset _ _ hq)
        omega
      · have hq' : q = s.nodes.length := by
          split at hq
          · simpa using hq
          · simp at hq
        omega
    · have hq' : q = s.nodes.length + 1 := by
        split at hq
        · simpa using hq
        · simp at hq
      omega
  · intro q hq
    rw [hqchar] at hq
    rcases List.mem_append.mp hq with hq | hq
    · rcases List.mem_append.mp hq with hq | hq
      · have hqmem : q ∈ s.splittable := List.erase_subset _ _ hq
        have hqlt := hInv.queue_lt q hqmem
        rw [(nget_applySplit_keep s p si hp q hqlt).2.2.2.2]
        exact hInv.queue_has_split q hqmem
      · by_cases hcond : splittableNode s.cfg
            (nget (applySplit s p si) s.nodes.length) = true
        · rw [if_pos hcond] at hq
          simp at hq
          subst hq
          exact splittableNode_isSome _ _ hcond
        · rw [if_neg hcond] at hq
          simp at hq
    · by_cases hcond : splittableNode s.cfg
          (nget (applySplit s p si) (s.nodes.length + 1)) = true
      · rw [if_pos hcond] at hq
        simp at hq
        subst hq
        exact splittableNode_isSome _ _ hcond
      · rw [if_neg hcond] at hq
        simp at hq
  · intro q hq
    rw [hqchar] at hq
    rcases List.mem_append.mp hq with hq | hq
    · rcases List.mem_append.mp hq with hq | hq
      · have hqmem : q ∈ s.splittable := List.erase_subset _ _ hq
        have hqne : q ≠ p := (hInv.queue_nodup.mem_erase_iff.mp hq).1
        have hqlt := hInv.queue_lt q hqmem
        rw [nget_applySplit_old s p si hp q hqlt hqne]
        exact hInv.queue_no_children q hqmem
      · have hq' : q = s.nodes.length := by
          split at hq
          · simpa using hq
          · simp at hq
        subst hq'
        rw [hngL]
        exact ⟨rfl, rfl⟩
    · have hq' : q = s.nodes.length + 1 := by
        split at hq
        · simpa using hq
        · simp at hq
      subst hq'
      rw [hngR]
      exact ⟨rfl, rfl⟩
  · rw [hqchar]
    have herase : ∀ q ∈ s.splittable.erase p, q < s.nodes.length :=
      fun q hq => hInv.queue_lt q (List.erase_subset _ _ hq)
    rw [List.nodup_append, List.nodup_append]
    refine ⟨⟨hInv.queue_nodup.erase p, ?_, ?_⟩, ?_, ?_⟩
    · split <;> simp
    · intro q hq
      split
      · intro hmem
        simp at hmem
        subst hmem
        exact absurd (herase _ hq) (by omega)
      · simp
    · split <;> simp
    · intro q hq
      split
      · intro hmem
        simp at hmem
        subst hmem
        rcases List.mem_append.mp hq with hq | hq
        · exact absurd (herase _ hq) (by omega)
        · have : s.nodes.length + 1 = s.nodes.length := by
            split at hq
            · simpa using hq
            · simp at hq
          omega
      · simp
  · intro q hq
    rw [hfchar] at hq
    rw [hlen]
    rcases List.mem_append.mp hq with hq | hq
    · rcases List.mem_append.mp hq with hq | hq
      · have := hInv.fin_lt q hq
        omega
      · have hq' : q = s.nodes.length := by
          split at hq
          · simp at hq
          · simpa using hq
        omega
    · have hq' : q = s.nodes.length + 1 := by
        split at hq
        · simp at hq
        · simpa using hq
      omega

lemma inv_growN (k : ℕ) (s : State) (hInv : Inv s) : Inv (growN k s) := by
  induction k generalizing s with
  | zero => exact hInv
  | succ k ih =>
    unfold growN
    by_cases hc : can_split_further s = true
    · rw [if_pos hc]
      cases hsn : split_next s with
      | none => exact hInv
      | some t =>
        obtain ⟨s', l, r⟩ := t
        exact ih _ (inv_split_next s s' l r hInv hsn)
    · rw [if_neg hc]
      exact hInv

/-! ### Small projection and membership helpers -/

lemma mkNode_samples (s : State) (S : List ℕ) (d : ℕ) :
    (mkNode s S d).sample_indices = S := rfl

lemma mem_leftSamples (X : BinnedMatrix) (S : List ℕ) (f t i : ℕ) :
    i ∈ leftSamples X S f t ↔ i ∈ S ∧ (colOf X f).getD i 0 ≤ t := by
  unfold leftSamples goesLeft
  rw [List.mem_filter]
  simp

lemma mem_rightSamples (X : BinnedMatrix) (S : List ℕ) (f t i : ℕ) :
    i ∈ rightSamples X S f t ↔ i ∈ S ∧ ¬((colOf X f).getD i 0 ≤ t) := by
  unfold rightSamples goesLeft
  rw [List.mem_filter]
  simp

lemma length_left_add_right (X : BinnedMatrix) (S : List ℕ) (f t : ℕ) :
    (leftSamples X S f t).length + (rightSamples X S f t).length = S.length :=
  length_filter_add_length_not _ _

lemma s0_fields (X : BinnedMatrix) (g : List ℚ) (h : Hessians) (cfg : Config)
    (s₀ : State) (hok : initGrower X g h cfg = .ok s₀) :
    s₀.X = X ∧ s₀.gradients = g ∧ s₀.hessians = h ∧ s₀.cfg = cfg := by
  rw [initGrower_ok_eq X g h cfg s₀ hok]
  refine ⟨?_, ?_, ?_, ?_⟩
  · rw [enq_X]; rfl
  · rw [enq_gradients]; rfl
  · rw [enq_hessians]; rfl
  · rw [enq_cfg]; rfl

/-! ### Claim theorems -/

/-- C1: for every split applied by `split_next`, the two children's
sample-index sets are disjoint, their union is the parent's sample-index set,
and their lengths add up to the parent's. -/
theorem claim_C1 (s s' : State) (l r : ℕ) (hInv : Inv s)
    (h : split_next s = some (s', l, r)) :
    ∃ p ∈ s.splittable,
      (nget s' p).left_child = some l ∧ (nget s' p).right_child = some r ∧
      (nget s' l).sample_indices.length + (nget s' r).sample_indices.length =
        (nget s' p).sample_indices.length ∧
      (∀ i, i ∈ (nget s' p).sample_indices ↔
        (i ∈ (nget s' l).sample_indices ∨ i ∈ (nget s' r).sample_indices)) ∧
      (∀ i, ¬(i ∈ (nget s' l).sample_indices ∧ i ∈ (nget s' r).sample_indices)) := by
  obtain ⟨p, si, ham, hsi, hs', hl, hr⟩ := split_next_some s s' l r h
  subst hs' hl hr
  have hpmem := argmaxFirst_mem _ _ _ ham
  have hp := hInv.queue_lt p hpmem
  have hngL := nget_applySplit_leftChild s p si hp
  have hngR := nget_applySplit_rightChild s p si hp
  have hngP := nget_applySplit_parent s p si hp
  have hPsm : (nget (applySplit s p si) p).sample_indices =
      (nget s p).sample_indices := by rw [hngP]
  have hLsm : (nget (applySplit s p si) s.nodes.length).sample_indices =
      leftSamples s.X (nget s p).sample_indices si.feature_idx si.bin_idx := by
    rw [hngL]; rfl
  have hRsm : (nget (applySplit s p si) (s.nodes.length + 1)).sample_indices =
      rightSamples s.X (nget s p).sample_indices si.feature_idx si.bin_idx := by
    rw [hngR]; rfl
  refine ⟨p, hpmem, ?_, ?_, ?_, ?_, ?_⟩
  · rw [hngP]
  · rw [hngP]
  · rw [hLsm, hRsm, hPsm]
    exact length_left_add_right _ _ _ _
  · intro i
    rw [hLsm, hRsm, hPsm, mem_leftSamples, mem_rightSamples]
    constructor
    · intro hi
      by_cases hgl : (colOf s.X si.feature_idx).getD i 0 ≤ si.bin_idx
      · exact Or.inl ⟨hi, hgl⟩
      · exact Or.inr ⟨hi, hgl⟩
    · rintro (⟨hi, -⟩ | ⟨hi, -⟩) <;> exact hi
  · rintro i ⟨hiL, hiR⟩
    rw [hLsm, mem_leftSamples] at hiL
    rw [hRsm, mem_rightSamples] at hiR
    exact hiR.2 hiL.2

/-- C2: every finalized leaf of a grown tree carries the prediction value
`shrinkage * (-G / (H + lambda))` where `G` and `H` are its gradient and
hessian sums over its own samples (lambda is the configured L2 constant,
zero unless configured). -/
theorem claim_C2 (X : BinnedMatrix) (g : List ℚ) (h : Hessians) (cfg : Config)
    (s₀ : State) (hok : initGrower X g h cfg = .ok s₀) (k j : ℕ)
    (hj : j ∈ (growN k s₀).finalized_leaves) :
    (nget (growN k s₀) j).value =
      cfg.shrinkage * (-(nget (growN k s₀) j).sum_gradients /
        ((nget (growN k s₀) j).sum_hessians + cfg.l2_reg)) ∧
    (nget (growN k s₀) j).sum_gradients =
      gradSum g (nget (growN k s₀) j).sample_indices ∧
    (nget (growN k s₀) j).sum_hessians =
      hessSum h (nget (growN k s₀) j).sample_indices := by
  have hInv := inv_growN k s₀ (inv_init X g h cfg s₀ hok)
  obtain ⟨hX, hg, hh, hcfg⟩ := growN_fields k s₀
  obtain ⟨h0X, h0g, h0h, h0c⟩ := s0_fields X g h cfg s₀ hok
  have hjlt := hInv.fin_lt j hj
  have NI := hInv.node_inv j hjlt
  refine ⟨?_, ?_, ?_⟩
  · have := NI.value_eq
    rwa [hcfg, h0c] at this
  · have := NI.sum_g
    rwa [hg, h0g] at this
  · have := NI.sum_h
    rwa [hh, h0h] at this

/-- C6: TreeGrower construction fails eagerly with a distinct, named
configuration error — no grower state is ever produced — whenever the binned
matrix is not the quantized integer dtype, or is not feature-major (Fortran)
contiguous, or `min_gain_to_split` is negative, or `min_hessian_to_split` is
negative. -/
theorem claim_C6 (X : BinnedMatrix) (g : List ℚ) (h : Hessians) (cfg : Config) :
    (X.dtype_uint8 = false →
      initGrower X g h cfg = .error .notBinnedDtype) ∧
    (X.dtype_uint8 = true → X.fortran = false →
      initGrower X g h cfg = .error .notFortranContiguous) ∧
    (X.dtype_uint8 = true → X.fortran = true → cfg.min_gain_to_split < 0 →
      initGrower X g h cfg = .error .negativeMinGain) ∧
    (X.dtype_uint8 = true → X.fortran = true → 0 ≤ cfg.min_gain_to_split →
      cfg.min_hessian_to_split < 0 →
      initGrower X g h cfg = .error .negativeMinHessian) := by
  refine ⟨?_, ?_, ?_, ?_⟩
  · intro h1
    unfold initGrower
    rw [if_pos h1]
  · intro h1 h2
    unfold initGrower
    rw [if_neg (by simp [h1]), if_pos h2]
  · intro h1 h2 h3
    unfold initGrower
    rw [if_neg (by simp [h1]), if_neg (by simp [h2]), if_pos h3]
  · intro h1 h2 h3 h4
    unfold initGrower
    rw [if_neg (by simp [h1]), if_neg (by simp [h2]),
      if_neg (not_lt.mpr h3), if_pos h4]

/-- C7: whenever `find_best_split` returns a split, that split comes from an
accepted candidate of the scan (feature index ascending, bin index ascending),
its gain is the regularized formula
`0.5 * (GL^2/(HL+lam) + (G-GL)^2/((H-HL)+lam) - G^2/(H+lam))` with the
right-side sums derived from the totals, every accepted candidate has gain at
most the returned one, and among accepted candidates of equal gain the
returned one is the first in scan order. -/
theorem claim_C7 (cfg : Config) (X : BinnedMatrix) (g : List ℚ) (h : Hessians)
    (S : List ℕ) (G H : ℚ) (si : SplitInfo)
    (hsome : find_best_split cfg X g h S G H = some si) :
    ∃ c ∈ scanCandidates cfg X,
      candAccepted cfg X h S H c = true ∧
      si = mkSplitInfo cfg X g h S G H c ∧
      si.feature_idx = c.1 ∧ si.bin_idx = c.2 ∧
      si.gain = 1/2 * ((gradSum g (leftSamples X S c.1 c.2)) ^ 2 /
          (hessSum h (leftSamples X S c.1 c.2) + cfg.l2_reg) +
        (G - gradSum g (leftSamples X S c.1 c.2)) ^ 2 /
          ((H - hessSum h (leftSamples X S c.1 c.2)) + cfg.l2_reg) -
        G ^ 2 / (H + cfg.l2_reg)) ∧
      (∀ c' ∈ scanCandidates cfg X, candAccepted cfg X h S H c' = true →
        candGain cfg X g h S G H c' ≤ candGain cfg X g h S G H c) ∧
      (∀ c' ∈ scanCandidates cfg X, candAccepted cfg X h S H c' = true →
        candGain cfg X g h S G H c' = candGain cfg X g h S G H c →
        scanRank cfg c ≤ scanRank cfg c') := by
  obtain ⟨c, hc, hacc, heq, hmax, htie⟩ :=
    fbs_some_spec cfg X g h S G H si hsome
  refine ⟨c, hc, hacc, heq, ?_, ?_, ?_, hmax, htie⟩
  · rw [heq]; rfl
  · rw [heq]; rfl
  · rw [heq]; rfl

/-- C10: under the grower invariant, `split_next` fails (returns `none`)
exactly when no splittable node is pending; when it succeeds it dequeues the
queued node with the highest gain (ties: first inserted), applies its split,
and removes it from the queue. -/
theorem claim_C10 (s : State) (hInv : Inv s) :
    (split_next s = none ↔ s.splittable = []) ∧
    (∀ s' l r, split_next s = some (s', l, r) →
      ∃ p pre post, s.splittable = pre ++ p :: post ∧
        (∀ q ∈ s.splittable, nodeGain s q ≤ nodeGain s p) ∧
        (∀ q ∈ pre, nodeGain s q < nodeGain s p) ∧
        (nget s' p).left_child = some l ∧ (nget s' p).right_child = some r ∧
        p ∉ s'.splittable) := by
  constructor
  · exact split_next_none_iff s hInv
  · intro s' l r hsome
    obtain ⟨p, si, ham, hsi, hs', hl, hr⟩ := split_next_some s s' l r hsome
    subst hs' hl hr
    obtain ⟨pre, post, hdec, hpre, hall⟩ := argmaxFirst_spec _ _ _ ham
    have hpmem := argmaxFirst_mem _ _ _ ham
    have hp := hInv.queue_lt p hpmem
    refine ⟨p, pre, post, hdec, hall, hpre, ?_, ?_, ?_⟩
    · rw [nget_applySplit_parent s p si hp]
    · rw [nget_applySplit_parent s p si hp]
    · intro hmem
      rw [(applySplit_queue s p si hp).1] at hmem
      rcases List.mem_append.mp hmem with hmem | hmem
      · rcases List.mem_append.mp hmem with hmem | hmem
        · exact (hInv.queue_nodup.mem_erase_iff.mp hmem).1 rfl
        · have : p = s.nodes.length := by
            split at hmem
            · simpa using hmem
            · simp at hmem
          omega
      · have : p = s.nodes.length + 1 := by
          split at hmem
          · simpa using hmem
          · simp at hmem
        omega

/-- C4: when `n_samples < 2 * min_samples_leaf`, every candidate threshold of
the root is rejected, so the constructed root is immediately finalized and
growth is a no-op: the tree keeps exactly one node, the sole finalized leaf,
whose count is `n_samples`. -/
theorem claim_C4 (X : BinnedMatrix) (g : List ℚ) (h : Hessians) (cfg : Config)
    (s₀ : State) (hok : initGrower X g h cfg = .ok s₀)
    (hn : X.n_samples < 2 * cfg.min_samples_leaf) :
    (∀ k, growN k s₀ = s₀) ∧ grow s₀ = s₀ ∧ s₀.nodes.length = 1 ∧
    s₀.finalized_leaves = [0] ∧ s₀.splittable = [] ∧
    (nget s₀ 0).sample_indices.length = X.n_samples ∧
    (nget s₀ 0).left_child = none ∧ (nget s₀ 0).right_child = none := by
  have hfbs : find_best_split cfg X g h (List.range X.n_samples)
      (gradSum g (List.range X.n_samples))
      (hessSum h (List.range X.n_samples)) = none := by
    rw [fbs_none_iff]
    intro c hc
    by_contra hacc
    have hacc' : candAccepted cfg X h (List.range X.n_samples)
        (hessSum h (List.range X.n_samples)) c = true := by
      simpa using hacc
    unfold candAccepted at hacc'
    simp only [Bool.and_eq_true, decide_eq_true_eq] at hacc'
    obtain ⟨⟨⟨h1, h2⟩, -⟩, -⟩ := hacc'
    have hlenle : (leftSamples X (List.range X.n_samples) c.1 c.2).length ≤
        X.n_samples := by
      have := List.length_filter_le (goesLeft X c.1 c.2) (List.range X.n_samples)
      simpa [leftSamples] using this
    rw [List.length_range] at h2
    omega
  have hroot_split : (mkNode (emptyState X g h cfg)
      (List.range X.n_samples) 0).split_info = none := hfbs
  have hsplitf : splittableNode (emptyState X g h cfg).cfg
      (mkNode (emptyState X g h cfg) (List.range X.n_samples) 0) = false := by
    unfold splittableNode
    rw [hroot_split]
  have hs0 := initGrower_ok_eq X g h cfg s₀ hok
  rcases enq_splittable_split
    { emptyState X g h cfg with
      nodes := [mkNode (emptyState X g h cfg) (List.range X.n_samples) 0] } 0 with
    ⟨hc, -, -⟩ | ⟨-, hq, hf⟩
  · have hc' : splittableNode (emptyState X g h cfg).cfg
        (mkNode (emptyState X g h cfg) (List.range X.n_samples) 0) = true := hc
    rw [hsplitf] at hc'
    exact absurd hc' (by simp)
  · have hq0 : s₀.splittable = [] := by rw [hs0, hq]; rfl
    have hf0 : s₀.finalized_leaves = [0] := by rw [hs0, hf]; rfl
    have hlen0 : s₀.nodes.length = 1 := by rw [hs0, enq_nodes]; rfl
    have hroot : nget s₀ 0 =
        mkNode (emptyState X g h cfg) (List.range X.n_samples) 0 := by
      rw [hs0, nget_enq]; rfl
    have hcsf : can_split_further s₀ = false := by
      unfold can_split_further
      rw [hq0]
      rfl
    have hgrow : ∀ k, growN k s₀ = s₀ := by
      intro k
      cases k with
      | zero => rfl
      | succ k =>
        unfold growN
        rw [hcsf]
        rw [if_neg (by simp)]
    refine ⟨hgrow, hgrow _, hlen0, hf0, hq0, ?_, ?_, ?_⟩
    · rw [hroot, mkNode_samples]
      exact List.length_range _
    · rw [hroot]; rfl
    · rw [hroot]; rfl

lemma count_split_next (s s' : State) (l r : ℕ) (hInv : Inv s)
    (hcount : ∀ j, j < s.nodes.length →
      s.cfg.min_samples_leaf ≤ (nget s j).sample_indices.length)
    (h : split_next s = some (s', l, r)) :
    ∀ j, j < s'.nodes.length →
      s'.cfg.min_samples_leaf ≤ (nget s' j).sample_indices.length := by
  obtain ⟨p, si, ham, hsi, hs', hl, hr⟩ := split_next_some s s' l r h
  subst hs'
  have hpmem := argmaxFirst_mem _ _ _ ham
  have hp := hInv.queue_lt p hpmem
  have hsisome : find_best_split s.cfg s.X s.gradients s.hessians
      (nget s p).sample_indices (nget s p).sum_gradients
      (nget s p).sum_hessians = some si := by
    rw [← (hInv.node_inv p hp).split_eq]; exact hsi
  obtain ⟨c, hc, hacc, heq, -, -⟩ := fbs_some_spec _ _ _ _ _ _ _ _ hsisome
  have hfc : si.feature_idx = c.1 := by rw [heq]; rfl
  have hbc : si.bin_idx = c.2 := by rw [heq]; rfl
  unfold candAccepted at hacc
  simp only [Bool.and_eq_true, decide_eq_true_eq] at hacc
  obtain ⟨⟨⟨h1, h2⟩, -⟩, -⟩ := hacc
  intro j hj
  rw [applySplit_cfg]
  rw [applySplit_length] at hj
  by_cases hjp : j = p
  · subst hjp
    rw [nget_applySplit_samples s j si hp j hp]
    exact hcount j hp
  · by_cases hjL : j = s.nodes.length
    · subst hjL
      rw [nget_applySplit_leftChild s p si hp, mkNode_samples, hfc, hbc]
      exact h1
    · by_cases hjR : j = s.nodes.length + 1
      · subst hjR
        rw [nget_applySplit_rightChild s p si hp, mkNode_samples, hfc, hbc]
        rw [show (rightSamples s.X (nget s p).sample_indices c.1 c.2).length =
            (nget s p).sample_indices.length -
            (leftSamples s.X (nget s p).sample_indices c.1 c.2).length from
          length_filter_not_eq_sub _ _]
        exact h2
      · have hjlt : j < s.nodes.length := by omega
        rw [nget_applySplit_old s p si hp j hjlt hjp]
        exact hcount j hjlt

lemma count_growN (k : ℕ) (s : State) (hInv : Inv s)
    (hcount : ∀ j, j < s.nodes.length →
      s.cfg.min_samples_leaf ≤ (nget s j).sample_indices.length) :
    ∀ j, j < (growN k s).nodes.length →
      (growN k s).cfg.min_samples_leaf ≤
        (nget (growN k s) j).sample_indices.length := by
  induction k generalizing s with
  | zero => exact hcount
  | succ k ih =>
    unfold growN
    by_cases hc : can_split_further s = true
    · rw [if_pos hc]
      cases hsn : split_next s with
      | none => exact hcount
      | some t =>
        obtain ⟨s', l, r⟩ := t
        exact ih s' (inv_split_next s s' l r hInv hsn)
          (count_split_next s s' l r hInv hcount hsn)
    · rw [if_neg hc]
      exact hcount

/-- C5: whenever `min_samples_leaf ≤ n_samples`, every finalized leaf of a
grown tree holds at least `min_samples_leaf` samples, because the splitter
rejects candidates whose left or right side would be smaller. -/
theorem claim_C5 (X : BinnedMatrix) (g : List ℚ) (h : Hessians) (cfg : Config)
    (s₀ : State) (hok : initGrower X g h cfg = .ok s₀)
    (hn : cfg.min_samples_leaf ≤ X.n_samples) (k j : ℕ)
    (hj : j ∈ (growN k s₀).finalized_leaves) :
    cfg.min_samples_leaf ≤ (nget (growN k s₀) j).sample_indices.length := by
  have hInv0 := inv_init X g h cfg s₀ hok
  obtain ⟨h0X, h0g, h0h, h0c⟩ := s0_fields X g h cfg s₀ hok
  have hcount0 : ∀ j, j < s₀.nodes.length →
      s₀.cfg.min_samples_leaf ≤ (nget s₀ j).sample_indices.length := by
    intro j hjlt
    have hlen1 : s₀.nodes.length = 1 := by
      rw [initGrower_ok_eq X g h cfg s₀ hok, enq_nodes]; rfl
    have hj0 : j = 0 := by omega
    subst hj0
    rw [h0c, hInv0.root_samples, List.length_range, h0X]
    exact hn
  have hInv := inv_growN k s₀ hInv0
  have hjlt := hInv.fin_lt j hj
  have hres := count_growN k s₀ hInv0 hcount0 j hjlt
  obtain ⟨hX, hg, hh, hcfg⟩ := growN_fields k s₀
  rwa [hcfg, h0c] at hres

/-! ### Predictor lemmas: flattening and traversal -/

lemma sizeT_pos (T : GTree) : 1 ≤ sizeT T := by
  cases T with
  | leaf v c => exact le_refl 1
  | node f th gn v c L R =>
    show 1 ≤ 1 + sizeT L + sizeT R
    omega

lemma flattenT_node_unfold (f th : ℕ) (gn v : ℚ) (c : ℕ) (L R : GTree)
    (b : ℕ) :
    flattenT (.node f th gn v c L R) b =
      { is_leaf := false
        feature_idx := f
        bin_threshold := th
        left_child_index := b + 1
        right_child_index := b + 1 + (flattenT L (b + 1)).length
        value := v
        count := c
        gain := gn } ::
      (flattenT L (b + 1) ++
        flattenT R (b + 1 + (flattenT L (b + 1)).length)) := rfl

lemma flattenT_length (T : GTree) : ∀ b : ℕ,
    (flattenT T b).length = sizeT T := by
  induction T with
  | leaf v c => intro b; rfl
  | node f th gn v c L R ihL ihR =>
    intro b
    rw [flattenT_node_unfold, List.length_cons, List.length_append,
      ihL, ihR]
    simp [sizeT]
    omega

lemma rowOf_getD (X : BinnedMatrix) (i f : ℕ) :
    (rowOf X i).getD f 0 = (colOf X f).getD i 0 := by
  unfold rowOf colOf
  simpa using List.getD_map X.cols [] (fun col => col.getD i 0)

lemma predictGo_flat (row : List ℕ) : ∀ (T : GTree) (ns : List PredictorNode)
    (b fuel : ℕ),
    (∀ k, k < (flattenT T b).length →
      ns.getD (b + k) defPNode = (flattenT T b).getD k defPNode) →
    sizeT T ≤ fuel →
    predictGo ns row fuel b = predictT T row := by
  intro T
  induction T with
  | leaf v c =>
    intro ns b fuel hsit hfuel
    cases fuel with
    | zero => simp [sizeT] at hfuel
    | succ fuel =>
      have h0 := hsit 0 (by simp [flattenT])
      rw [Nat.add_zero] at h0
      have hstep : predictGo ns row (fuel + 1) b =
          if (ns.getD b defPNode).is_leaf then (ns.getD b defPNode).value
          else if row.getD (ns.getD b defPNode).feature_idx 0 ≤
              (ns.getD b defPNode).bin_threshold then
            predictGo ns row fuel (ns.getD b defPNode).left_child_index
          else predictGo ns row fuel (ns.getD b defPNode).right_child_index := rfl
      rw [hstep, h0]
      simp [flattenT, predictT]
  | node f th gn v c L R ihL ihR =>
    intro ns b fuel hsit hfuel
    rw [sizeT] at hfuel
    have hposL := sizeT_pos L
    have hposR := sizeT_pos R
    cases fuel with
    | zero => omega
    | succ fuel =>
      have hlenT : (flattenT (.node f th gn v c L R) b).length =
          1 + (flattenT L (b + 1)).length +
            (flattenT R (b + 1 + (flattenT L (b + 1)).length)).length := by
        rw [flattenT_node_unfold, List.length_cons, List.length_append]
        omega
      have h0 := hsit 0 (by rw [hlenT]; omega)
      rw [Nat.add_zero] at h0
      have hhead : (flattenT (.node f th gn v c L R) b).getD 0 defPNode =
          { is_leaf := false
            feature_idx := f
            bin_threshold := th
            left_child_index := b + 1
            right_child_index := b + 1 + (flattenT L (b + 1)).length
            value := v
            count := c
            gain := gn } := by
        rw [flattenT_node_unfold]
        rfl
      have hnd := h0.trans hhead
      have hsitL : ∀ k, k < (flattenT L (b + 1)).length →
          ns.getD (b + 1 + k) defPNode =
            (flattenT L (b + 1)).getD k defPNode := by
        intro k hk
        have h1 := hsit (k + 1) (by rw [hlenT]; omega)
        rw [show b + (k + 1) = b + 1 + k from by omega] at h1
        rw [h1, flattenT_node_unfold, List.getD_cons_succ,
          List.getD_append _ _ _ _ hk]
      have hsitR : ∀ k,
          k < (flattenT R (b + 1 + (flattenT L (b + 1)).length)).length →
          ns.getD (b + 1 + (flattenT L (b + 1)).length + k) defPNode =
            (flattenT R (b + 1 + (flattenT L (b + 1)).length)).getD k
              defPNode := by
        intro k hk
        have h1 := hsit ((flattenT L (b + 1)).length + k + 1)
          (by rw [hlenT]; omega)
        rw [show b + ((flattenT L (b + 1)).length + k + 1) =
            b + 1 + (flattenT L (b + 1)).length + k from by omega] at h1
        rw [h1, flattenT_node_unfold, List.getD_cons_succ,
          List.getD_append_right _ _ _ _ (by omega)]
        congr 1
        omega
      have hfL : sizeT L ≤ fuel := by
        rw [flattenT_length] at hlenT
        omega
      have hfR : sizeT R ≤ fuel := by omega
      have hstep : predictGo ns row (fuel + 1) b =
          if (ns.getD b defPNode).is_leaf then (ns.getD b defPNode).value
          else if row.getD (ns.getD b defPNode).feature_idx 0 ≤
              (ns.getD b defPNode).bin_threshold then
            predictGo ns row fuel (ns.getD b defPNode).left_child_index
          else predictGo ns row fuel (ns.getD b defPNode).right_child_index := rfl
      rw [hstep, hnd]
      rw [if_neg (by simp)]
      show _ = predictT (.node f th gn v c L R) row
      unfold predictT
      by_cases hcmp : row.getD f 0 ≤ th
      · rw [if_pos hcmp, if_pos hcmp]
        exact ihL ns (b + 1) fuel hsitL hfL
      · rw [if_neg hcmp, if_neg hcmp]
        exact ihR ns (b + 1 + (flattenT L (b + 1)).length) fuel hsitR hfR

lemma predict_flat (T : GTree) (row : List ℕ) :
    predict_binned (flattenT T 0) row = predictT T row := by
  unfold predict_binned
  apply predictGo_flat
  · intro k hk
    rw [Nat.zero_add]
  · rw [flattenT_length]

lemma predict_make (s : State) (row : List ℕ) :
    predict_binned (make_predictor s) row =
      predictT (toT s s.nodes.length 0) row := by
  unfold make_predictor
  exact predict_flat _ row

lemma toT_value (s : State) (fuel j : ℕ) :
    valueT (toT s fuel j) = (nget s j).value ∧
    countT (toT s fuel j) = (nget s j).sample_indices.length := by
  cases fuel with
  | zero => exact ⟨rfl, rfl⟩
  | succ fuel =>
    unfold toT
    cases hL : (nget s j).left_child <;>
      cases hR : (nget s j).right_child <;>
      cases hSI : (nget s j).split_info <;>
      exact ⟨rfl, rfl⟩

lemma flattenT_head (T : GTree) (b : ℕ) :
    ((flattenT T b).getD 0 defPNode).value = valueT T ∧
    ((flattenT T b).getD 0 defPNode).count = countT T := by
  cases T <;> exact ⟨rfl, rfl⟩

lemma flattenT_idx : ∀ (T : GTree) (b k : ℕ), k < (flattenT T b).length →
    ((flattenT T b).getD k defPNode).is_leaf = false →
    ((flattenT T b).getD k defPNode).left_child_index = b + k + 1 ∧
    b + k < ((flattenT T b).getD k defPNode).right_child_index ∧
    ((flattenT T b).getD k defPNode).right_child_index <
      b + (flattenT T b).length := by
  intro T
  induction T with
  | leaf v c =>
    intro b k hk hleaf
    have hk0 : k = 0 := by
      simp [flattenT] at hk
      omega
    subst hk0
    simp [flattenT] at hleaf
  | node f th gn v c L R ihL ihR =>
    intro b k hk hleaf
    have hlenT : (flattenT (.node f th gn v c L R) b).length =
        1 + (flattenT L (b + 1)).length +
          (flattenT R (b + 1 + (flattenT L (b + 1)).length)).length := by
      rw [flattenT_node_unfold, List.length_cons, List.length_append]
      omega
    have hposR := sizeT_pos R
    have hlenR := flattenT_length R (b + 1 + (flattenT L (b + 1)).length)
    cases k with
    | zero =>
      rw [flattenT_node_unfold, List.getD_cons_zero]
      refine ⟨rfl, ?_, ?_⟩
      · show b + 0 < b + 1 + (flattenT L (b + 1)).length
        omega
      · show b + 1 + (flattenT L (b + 1)).length <
          b + (flattenT (.node f th gn v c L R) b).length
        rw [hlenT]
        omega
    | succ k =>
      rw [flattenT_node_unfold, List.getD_cons_succ] at hleaf ⊢
      rw [hlenT] at hk
      by_cases hkL : k < (flattenT L (b + 1)).length
      · rw [List.getD_append _ _ _ _ hkL] at hleaf ⊢
        obtain ⟨e1, e2, e3⟩ := ihL (b + 1) k hkL hleaf
        refine ⟨?_, ?_, ?_⟩
        · rw [e1]; omega
        · omega
        · show _ < b + (flattenT (.node f th gn v c L R) b).length
          rw [hlenT]
          omega
      · rw [List.getD_append_right _ _ _ _ (by omega)] at hleaf ⊢
        have hk' : k - (flattenT L (b + 1)).length <
            (flattenT R (b + 1 + (flattenT L (b + 1)).length)).length := by
          omega
        obtain ⟨e1, e2, e3⟩ := ihR (b + 1 + (flattenT L (b + 1)).length)
          (k - (flattenT L (b + 1)).length) hk' hleaf
        refine ⟨?_, ?_, ?_⟩
        · rw [e1]; omega
        · omega
        · show _ < b + (flattenT (.node f th gn v c L R) b).length
          rw [hlenT]
          omega

lemma predictT_toT (s : State) (t : ℕ → ℚ) (hInv : Inv s)
    (hshr : s.cfg.shrinkage = 1) (hreg : s.cfg.l2_reg = 0)
    (hH : ∀ S : List ℕ, (∀ i ∈ S, i < s.X.n_samples) →
      hessSum s.hessians S = (S.length : ℚ))
    (hg : ∀ i, i < s.X.n_samples → s.gradients.getD i 0 = -(t i))
    (hpure : ∀ j, j < s.nodes.length → (nget s j).left_child = none →
      ∀ a ∈ (nget s j).sample_indices,
        ∀ b ∈ (nget s j).sample_indices, t a = t b) :
    ∀ fuel j, j < s.nodes.length → s.nodes.length ≤ fuel + j →
      ∀ i ∈ (nget s j).sample_indices,
        predictT (toT s fuel j) (rowOf s.X i) = t i := by
  intro fuel
  induction fuel with
  | zero =>
    intro j hj hle
    omega
  | succ fuel ih =>
    intro j hj hle i hi
    have NI := hInv.node_inv j hj
    rcases NI.children with ⟨hL, hR⟩ |
      ⟨l0, r0, si0, hl0, hr0, hsi0, hjl0, hl0lt, hjr0, hr0lt, hsl, hsr⟩
    · have htoT : toT s (fuel + 1) j =
          .leaf (nget s j).value (nget s j).sample_indices.length := by
        simp only [toT]
        rw [hL]
      rw [htoT]
      show (nget s j).value = t i
      have hGsum : (nget s j).sum_gradients =
          -(((nget s j).sample_indices.length : ℚ) * t i) := by
        rw [NI.sum_g]
        have hconst : ∀ a ∈ (nget s j).sample_indices,
            s.gradients.getD a 0 = -(t i) := by
          intro a ha
          rw [hg a (NI.samples_lt a ha), hpure j hj hL a ha i hi]
        rw [gradSum_const _ _ _ hconst]
        ring
      have hHsum : (nget s j).sum_hessians =
          ((nget s j).sample_indices.length : ℚ) := by
        rw [NI.sum_h]
        exact hH _ NI.samples_lt
      have hne : ((nget s j).sample_indices.length : ℚ) ≠ 0 := by
        have hpos : 0 < (nget s j).sample_indices.length :=
          List.length_pos.mpr (List.ne_nil_of_mem hi)
        exact_mod_cast hpos.ne'
      rw [NI.value_eq, hshr, hreg, hGsum, hHsum, one_mul, add_zero, neg_neg]
      exact mul_div_cancel_left₀ _ hne
    · have htoT : toT s (fuel + 1) j =
          .node si0.feature_idx si0.bin_idx si0.gain (nget s j).value
            (nget s j).sample_indices.length (toT s fuel l0) (toT s fuel r0) := by
        simp only [toT]
        rw [hl0, hr0, hsi0]
      rw [htoT]
      show (if (rowOf s.X i).getD si0.feature_idx 0 ≤ si0.bin_idx then
          predictT (toT s fuel l0) (rowOf s.X i)
        else predictT (toT s fuel r0) (rowOf s.X i)) = t i
      rw [rowOf_getD]
      by_cases hcmp : (colOf s.X si0.feature_idx).getD i 0 ≤ si0.bin_idx
      · rw [if_pos hcmp]
        apply ih l0 hl0lt (by omega) i
        rw [hsl, mem_leftSamples]
        exact ⟨hi, hcmp⟩
      · rw [if_neg hcmp]
        apply ih r0 hr0lt (by omega) i
        rw [hsr, mem_rightSamples]
        exact ⟨hi, hcmp⟩

/-- C3: a grown tree with shrinkage 1, unit hessians, no L2 regularization,
squared-loss gradients `g i = -(t i)` for targets `t`, and pure leaves (all
samples of each childless node share one target) predicts the training
targets exactly on the training rows; and the flat traversal of
`predict_binned` goes left when the row's bin at the node's feature is at most
the node's bin threshold, right otherwise, and returns the reached leaf's
value. -/
theorem claim_C3 (X : BinnedMatrix) (g : List ℚ) (h : Hessians) (cfg : Config)
    (s₀ : State) (t : ℕ → ℚ) (hok : initGrower X g h cfg = .ok s₀) (k : ℕ)
    (hshr : cfg.shrinkage = 1) (hreg : cfg.l2_reg = 0)
    (hH : ∀ S : List ℕ, (∀ i ∈ S, i < X.n_samples) →
      hessSum h S = (S.length : ℚ))
    (hg : ∀ i, i < X.n_samples → g.getD i 0 = -(t i))
    (hpure : ∀ j, j < (growN k s₀).nodes.length →
      (nget (growN k s₀) j).left_child = none →
      ∀ a ∈ (nget (growN k s₀) j).sample_indices,
        ∀ b ∈ (nget (growN k s₀) j).sample_indices, t a = t b) :
    (∀ i, i < X.n_samples →
      predict_binned (make_predictor (growN k s₀)) (rowOf X i) = t i) ∧
    (∀ (ns : List PredictorNode) (row : List ℕ) (j fuel : ℕ),
      (ns.getD j defPNode).is_leaf = true →
      predictGo ns row (fuel + 1) j = (ns.getD j defPNode).value) ∧
    (∀ (ns : List PredictorNode) (row : List ℕ) (j fuel : ℕ),
      (ns.getD j defPNode).is_leaf = false →
      predictGo ns row (fuel + 1) j =
        if row.getD (ns.getD j defPNode).feature_idx 0 ≤
            (ns.getD j defPNode).bin_threshold then
          predictGo ns row fuel (ns.getD j defPNode).left_child_index
        else predictGo ns row fuel (ns.getD j defPNode).right_child_index) := by
  have hInv := inv_growN k s₀ (inv_init X g h cfg s₀ hok)
  obtain ⟨hX, hgr, hhe, hcfg⟩ := growN_fields k s₀
  obtain ⟨h0X, h0g, h0h, h0c⟩ := s0_fields X g h cfg s₀ hok
  have hXeq : (growN k s₀).X = X := hX.trans h0X
  have hgeq : (growN k s₀).gradients = g := hgr.trans h0g
  have hheq : (growN k s₀).hessians = h := hhe.trans h0h
  have hceq : (growN k s₀).cfg = cfg := hcfg.trans h0c
  refine ⟨?_, ?_, ?_⟩
  · intro i hi
    rw [predict_make]
    have hmain := predictT_toT (growN k s₀) t hInv
      (by rw [hceq, hshr]) (by rw [hceq, hreg])
      (by rw [hheq, hXeq]; exact hH) (by rw [hgeq, hXeq]; exact hg) hpure
      (growN k s₀).nodes.length 0 hInv.nonempty (by omega) i
    rw [hXeq] at hmain
    apply hmain
    rw [hInv.root_samples, hXeq]
    exact List.mem_range.mpr hi
  · intro ns row j fuel hleaf
    have hstep : predictGo ns row (fuel + 1) j =
        if (ns.getD j defPNode).is_leaf then (ns.getD j defPNode).value
        else if row.getD (ns.getD j defPNode).feature_idx 0 ≤
            (ns.getD j defPNode).bin_threshold then
          predictGo ns row fuel (ns.getD j defPNode).left_child_index
        else predictGo ns row fuel (ns.getD j defPNode).right_child_index := rfl
    rw [hstep, if_pos hleaf]
  · intro ns row j fuel hleaf
    have hstep : predictGo ns row (fuel + 1) j =
        if (ns.getD j defPNode).is_leaf then (ns.getD j defPNode).value
        else if row.getD (ns.getD j defPNode).feature_idx 0 ≤
            (ns.getD j defPNode).bin_threshold then
          predictGo ns row fuel (ns.getD j defPNode).left_child_index
        else predictGo ns row fuel (ns.getD j defPNode).right_child_index := rfl
    rw [hstep, if_neg (by rw [hleaf]; simp)]

/-- C9: in the flat node array produced by `make_predictor`, the root record
is at index 0 (it carries the root's value and count), and every decision
record's children sit at strictly larger in-range indices; the left child is
the immediately following record, as pre-order construction demands. -/
theorem claim_C9 (X : BinnedMatrix) (g : List ℚ) (h : Hessians) (cfg : Config)
    (s₀ : State) (hok : initGrower X g h cfg = .ok s₀) (k : ℕ) :
    0 < (make_predictor (growN k s₀)).length ∧
    ((make_predictor (growN k s₀)).getD 0 defPNode).value =
      (nget (growN k s₀) 0).value ∧
    ((make_predictor (growN k s₀)).getD 0 defPNode).count =
      (nget (growN k s₀) 0).sample_indices.length ∧
    (∀ j, j < (make_predictor (growN k s₀)).length →
      ((make_predictor (growN k s₀)).getD j defPNode).is_leaf = false →
      ((make_predictor (growN k s₀)).getD j defPNode).left_child_index = j + 1 ∧
      j < ((make_predictor (growN k s₀)).getD j defPNode).right_child_index ∧
      ((make_predictor (growN k s₀)).getD j defPNode).right_child_index <
        (make_predictor (growN k s₀)).length) := by
  refine ⟨?_, ?_, ?_, ?_⟩
  · unfold make_predictor
    rw [flattenT_length]
    exact sizeT_pos _
  · unfold make_predictor
    rw [(flattenT_head _ _).1, (toT_value _ _ _).1]
  · unfold make_predictor
    rw [(flattenT_head _ _).2, (toT_value _ _ _).2]
  · intro j hj hleaf
    unfold make_predictor at hj hleaf ⊢
    obtain ⟨e1, e2, e3⟩ := flattenT_idx _ 0 j hj hleaf
    rw [Nat.zero_add] at e2 e3
    exact ⟨by rw [e1]; omega, e2, e3⟩

/-! ### Constant-hessian simulation -/

lemma getD_replicate (n : ℕ) (c : ℚ) (i : ℕ) (h : i < n) :
    (List.replicate n c).getD i 0 = c := by
  rw [List.getD_eq_getElem?_getD, List.getElem?_replicate]
  simp [h]

lemma candAccepted_congr (cfg : Config) (X : BinnedMatrix) (h₁ h₂ : Hessians)
    (S : List ℕ) (H : ℚ) (n : ℕ)
    (hA : ∀ L : List ℕ, (∀ i ∈ L, i < n) → hessSum h₁ L = hessSum h₂ L)
    (hS : ∀ i ∈ S, i < n) (c : ℕ × ℕ) :
    candAccepted cfg X h₁ S H c = candAccepted cfg X h₂ S H c := by
  unfold candAccepted
  simp only [hA (leftSamples X S c.1 c.2)
    (fun i hi => hS i (List.mem_filter.mp hi).1)]

lemma mkSplitInfo_congr (cfg : Config) (X : BinnedMatrix) (g : List ℚ)
    (h₁ h₂ : Hessians) (S : List ℕ) (G H : ℚ) (n : ℕ)
    (hA : ∀ L : List ℕ, (∀ i ∈ L, i < n) → hessSum h₁ L = hessSum h₂ L)
    (hS : ∀ i ∈ S, i < n) (c : ℕ × ℕ) :
    mkSplitInfo cfg X g h₁ S G H c = mkSplitInfo cfg X g h₂ S G H c := by
  unfold mkSplitInfo
  simp only [hA (leftSamples X S c.1 c.2)
    (fun i hi => hS i (List.mem_filter.mp hi).1)]

lemma fbs_congr (cfg : Config) (X : BinnedMatrix) (g : List ℚ)
    (h₁ h₂ : Hessians) (S : List ℕ) (G H : ℚ) (n : ℕ)
    (hA : ∀ L : List ℕ, (∀ i ∈ L, i < n) → hessSum h₁ L = hessSum h₂ L)
    (hS : ∀ i ∈ S, i < n) :
    find_best_split cfg X g h₁ S G H = find_best_split cfg X g h₂ S G H := by
  unfold find_best_split
  have hfilter : (scanCandidates cfg X).filter (candAccepted cfg X h₁ S H) =
      (scanCandidates cfg X).filter (candAccepted cfg X h₂ S H) :=
    List.filter_congr
      (fun c _ => candAccepted_congr cfg X h₁ h₂ S H n hA hS c)
  have hgainf : candGain cfg X g h₁ S G H = candGain cfg X g h₂ S G H :=
    funext (fun c => by
      unfold candGain
      rw [mkSplitInfo_congr cfg X g h₁ h₂ S G H n hA hS c])
  have hmkf : mkSplitInfo cfg X g h₁ S G H = mkSplitInfo cfg X g h₂ S G H :=
    funext (fun c => mkSplitInfo_congr cfg X g h₁ h₂ S G H n hA hS c)
  rw [hfilter, hgainf, hmkf]

lemma mkNode_congr (s₁ s₂ : State) (S : List ℕ) (d : ℕ)
    (hX : s₁.X = s₂.X) (hg : s₁.gradients = s₂.gradients)
    (hc : s₁.cfg = s₂.cfg)
    (hA : ∀ L : List ℕ, (∀ i ∈ L, i < s₁.X.n_samples) →
      hessSum s₁.hessians L = hessSum s₂.hessians L)
    (hS : ∀ i ∈ S, i < s₁.X.n_samples) :
    mkNode s₁ S d = mkNode s₂ S d := by
  unfold mkNode
  simp only [hA S hS, hX, hg, hc]
  rw [fbs_congr s₂.cfg s₂.X s₂.gradients s₁.hessians s₂.hessians S
    (gradSum s₂.gradients S) (hessSum s₂.hessians S) s₁.X.n_samples hA hS]

lemma enq_congr (u v : State) (idx : ℕ) (hc : u.cfg = v.cfg)
    (hn : u.nodes = v.nodes) (hq : u.splittable = v.splittable)
    (hf : u.finalized_leaves = v.finalized_leaves) :
    (enqueueOrFinalize u idx).splittable =
      (enqueueOrFinalize v idx).splittable ∧
    (enqueueOrFinalize u idx).finalized_leaves =
      (enqueueOrFinalize v idx).finalized_leaves ∧
    (enqueueOrFinalize u idx).nodes = (enqueueOrFinalize v idx).nodes ∧
    (enqueueOrFinalize u idx).cfg = (enqueueOrFinalize v idx).cfg := by
  unfold enqueueOrFinalize
  have hcond : splittableNode u.cfg (nget u idx) =
      splittableNode v.cfg (nget v idx) := by
    unfold nget
    rw [hc, hn]
  by_cases hsp : splittableNode u.cfg (nget u idx) = true
  · rw [if_pos hsp, if_pos (by rw [← hcond]; exact hsp)]
    refine ⟨?_, hf, hn, hc⟩
    show u.splittable ++ [idx] = v.splittable ++ [idx]
    rw [hq]
  · rw [if_neg hsp, if_neg (by rw [← hcond]; exact hsp)]
    refine ⟨hq, ?_, hn, hc⟩
    show u.finalized_leaves ++ [idx] = v.finalized_leaves ++ [idx]
    rw [hf]

lemma sim_split_next (s₁ s₂ : State) (hsim : simState s₁ s₂)
    (hA : ∀ L : List ℕ, (∀ i ∈ L, i < s₁.X.n_samples) →
      hessSum s₁.hessians L = hessSum s₂.hessians L)
    (hInv : Inv s₁) :
    (split_next s₁ = none → split_next s₂ = none) ∧
    (∀ s₁' l r, split_next s₁ = some (s₁', l, r) →
      ∃ s₂', split_next s₂ = some (s₂', l, r) ∧ simState s₁' s₂' ∧
        (∀ L : List ℕ, (∀ i ∈ L, i < s₁'.X.n_samples) →
          hessSum s₁'.hessians L = hessSum s₂'.hessians L)) := by
  obtain ⟨hX, hg, hc, hn, hq, hf⟩ := hsim
  have hnget : ∀ j, nget s₁ j = nget s₂ j := by
    intro j
    unfold nget
    rw [hn]
  have hgain : nodeGain s₁ = nodeGain s₂ :=
    funext (fun p => by unfold nodeGain; rw [hnget p])
  constructor
  · intro h1
    have hempty := (split_next_none_iff s₁ hInv).mp h1
    unfold split_next
    rw [← hq, hempty]
    rfl
  · intro s₁' l r h1
    obtain ⟨p, si, ham, hsi, hs', hl, hr⟩ := split_next_some s₁ s₁' l r h1
    subst hs' hl hr
    have hpmem := argmaxFirst_mem _ _ _ ham
    have hp := hInv.queue_lt p hpmem
    have hSbound : ∀ i ∈ (nget s₁ p).sample_indices, i < s₁.X.n_samples :=
      (hInv.node_inv p hp).samples_lt
    have ham2 : argmaxFirst (nodeGain s₂) s₂.splittable = some p := by
      rw [← hq, ← hgain]
      exact ham
    have hsi2 : (nget s₂ p).split_info = some si := by
      rw [← hnget p]
      exact hsi
    have hlen2 : s₂.nodes.length = s₁.nodes.length := by rw [hn]
    have h2 : split_next s₂ =
        some (applySplit s₂ p si, s₂.nodes.length, s₂.nodes.length + 1) := by
      unfold split_next
      rw [ham2]
      simp only [hsi2]
    have hmkL : mkNode s₁
        (leftSamples s₁.X (nget s₁ p).sample_indices si.feature_idx si.bin_idx)
        ((nget s₁ p).depth + 1) = mkNode s₂
        (leftSamples s₁.X (nget s₁ p).sample_indices si.feature_idx si.bin_idx)
        ((nget s₁ p).depth + 1) :=
      mkNode_congr s₁ s₂ _ _ hX hg hc hA
        (fun i hi => hSbound i (List.mem_filter.mp hi).1)
    have hmkR : mkNode s₁
        (rightSamples s₁.X (nget s₁ p).sample_indices si.feature_idx si.bin_idx)
        ((nget s₁ p).depth + 1) = mkNode s₂
        (rightSamples s₁.X (nget s₁ p).sample_indices si.feature_idx si.bin_idx)
        ((nget s₁ p).depth + 1) :=
      mkNode_congr s₁ s₂ _ _ hX hg hc hA
        (fun i hi => hSbound i (List.mem_filter.mp hi).1)
    have hcoreN : (applySplitCore s₁ p si).nodes =
        (applySplitCore s₂ p si).nodes := by
      show (s₁.nodes.set p _) ++ _ = (s₂.nodes.set p _) ++ _
      rw [← hn, ← hnget p, ← hX, ← hmkL, ← hmkR]
    have hcoreQ : (applySplitCore s₁ p si).splittable =
        (applySplitCore s₂ p si).splittable := by
      show s₁.splittable.erase p = s₂.splittable.erase p
      rw [hq]
    have hcoreF : (applySplitCore s₁ p si).finalized_leaves =
        (applySplitCore s₂ p si).finalized_leaves := by
      show s₁.finalized_leaves = s₂.finalized_leaves
      exact hf
    have hcoreC : (applySplitCore s₁ p si).cfg =
        (applySplitCore s₂ p si).cfg := by
      show s₁.cfg = s₂.cfg
      exact hc
    obtain ⟨he1q, he1f, he1n, he1c⟩ :=
      enq_congr (applySplitCore s₁ p si) (applySplitCore s₂ p si)
        s₁.nodes.length hcoreC hcoreN hcoreQ hcoreF
    obtain ⟨he2q, he2f, he2n, he2c⟩ :=
      enq_congr (enqueueOrFinalize (applySplitCore s₁ p si) s₁.nodes.length)
        (enqueueOrFinalize (applySplitCore s₂ p si) s₁.nodes.length)
        (s₁.nodes.length + 1) he1c he1n he1q he1f
    refine ⟨applySplit s₂ p si, ?_, ?_, ?_⟩
    · rw [h2, hlen2]
    · refine ⟨?_, ?_, ?_, ?_, ?_, ?_⟩
      · rw [applySplit_X, applySplit_X]
        exact hX
      · rw [applySplit_gradients, applySplit_gradients]
        exact hg
      · rw [applySplit_cfg, applySplit_cfg]
        exact hc
      · show (applySplit s₁ p si).nodes = (applySplit s₂ p si).nodes
        unfold applySplit
        rw [hlen2]
        exact he2n
      · show (applySplit s₁ p si).splittable = (applySplit s₂ p si).splittable
        unfold applySplit
        rw [hlen2]
        exact he2q
      · show (applySplit s₁ p si).finalized_leaves =
          (applySplit s₂ p si).finalized_leaves
        unfold applySplit
        rw [hlen2]
        exact he2f
    · intro L hL
      rw [applySplit_hessians, applySplit_hessians]
      rw [applySplit_X] at hL
      exact hA L hL

lemma sim_growN (k : ℕ) (s₁ s₂ : State) (hsim : simState s₁ s₂)
    (hA : ∀ L : List ℕ, (∀ i ∈ L, i < s₁.X.n_samples) →
      hessSum s₁.hessians L = hessSum s₂.hessians L)
    (hInv : Inv s₁) : simState (growN k s₁) (growN k s₂) := by
  induction k generalizing s₁ s₂ with
  | zero => exact hsim
  | succ k ih =>
    unfold growN
    have hcsf : can_split_further s₁ = can_split_further s₂ := by
      unfold can_split_further
      rw [hsim.2.2.1, hsim.2.2.2.2.1, hsim.2.2.2.2.2]
    by_cases hcan : can_split_further s₁ = true
    · rw [if_pos hcan, if_pos (by rw [← hcsf]; exact hcan)]
      obtain ⟨hnone, hsome⟩ := sim_split_next s₁ s₂ hsim hA hInv
      cases hsn : split_next s₁ with
      | none => rw [hnone hsn]; exact hsim
      | some tr =>
        obtain ⟨s₁', l, r⟩ := tr
        obtain ⟨s₂', h2, hsim', hA'⟩ := hsome s₁' l r hsn
        rw [h2]
        exact ih s₁' s₂' hsim' hA' (inv_split_next s₁ s₁' l r hInv hsn)
    · rw [if_neg hcan, if_neg (by rw [← hcsf]; exact hcan)]
      exact hsim

/-- C8: growing with the hessians given as the broadcast scalar 1 (constant
hessian mode) produces the same tree — same node arena, same queue, same
finalized leaves, hence same splits, structure and leaf values — as growing
with the explicit all-ones per-sample hessian array. -/
theorem claim_C8 (X : BinnedMatrix) (g : List ℚ) (cfg : Config)
    (s₁ s₂ : State)
    (h1 : initGrower X g (Hessians.scalar 1) cfg = .ok s₁)
    (h2 : initGrower X g (Hessians.perSample (List.replicate X.n_samples 1))
      cfg = .ok s₂) (k : ℕ) :
    (growN k s₁).nodes = (growN k s₂).nodes ∧
    (growN k s₁).splittable = (growN k s₂).splittable ∧
    (growN k s₁).finalized_leaves = (growN k s₂).finalized_leaves := by
  have hA0 : ∀ L : List ℕ, (∀ i ∈ L, i < X.n_samples) →
      hessSum (Hessians.scalar 1) L =
        hessSum (Hessians.perSample (List.replicate X.n_samples 1)) L := by
    intro L hL
    show (1 : ℚ) * L.length = (L.map
      (fun i => (List.replicate X.n_samples (1 : ℚ)).getD i 0)).sum
    rw [sum_map_const L _ 1 (fun a ha => getD_replicate _ _ _ (hL a ha)),
      one_mul, mul_one]
  have hsim0 : simState s₁ s₂ := by
    rw [initGrower_ok_eq _ _ _ _ _ h1, initGrower_ok_eq _ _ _ _ _ h2]
    have hmk : mkNode (emptyState X g (Hessians.scalar 1) cfg)
        (List.range X.n_samples) 0 =
        mkNode (emptyState X g
          (Hessians.perSample (List.replicate X.n_samples 1)) cfg)
        (List.range X.n_samples) 0 :=
      mkNode_congr _ _ _ _ rfl rfl rfl hA0
        (fun i hi => List.mem_range.mp hi)
    obtain ⟨heq, hef, hen, hec⟩ := enq_congr
      { emptyState X g (Hessians.scalar 1) cfg with
        nodes := [mkNode (emptyState X g (Hessians.scalar 1) cfg)
          (List.range X.n_samples) 0] }
      { emptyState X g
          (Hessians.perSample (List.replicate X.n_samples 1)) cfg with
        nodes := [mkNode (emptyState X g
          (Hessians.perSample (List.replicate X.n_samples 1)) cfg)
          (List.range X.n_samples) 0] }
      0 rfl (by rw [hmk]) rfl rfl
    refine ⟨?_, ?_, ?_, hen, heq, hef⟩
    · rw [enq_X, enq_X]
      rfl
    · rw [enq_gradients, enq_gradients]
      rfl
    · rw [enq_cfg, enq_cfg]
      rfl
  have hA1 : ∀ L : List ℕ, (∀ i ∈ L, i < s₁.X.n_samples) →
      hessSum s₁.hessians L = hessSum s₂.hessians L := by
    obtain ⟨e1X, e1g, e1h, e1c⟩ :=
      s0_fields X g (Hessians.scalar 1) cfg s₁ h1
    obtain ⟨e2X, e2g, e2h, e2c⟩ := s0_fields X g
      (Hessians.perSample (List.replicate X.n_samples 1)) cfg s₂ h2
    rw [e1X, e1h, e2h]
    exact hA0
  have hsim := sim_growN k s₁ s₂ hsim0 hA1
    (inv_init X g (Hessians.scalar 1) cfg s₁ h1)
  exact ⟨hsim.2.2.2.1, hsim.2.2.2.2.1, hsim.2.2.2.2.2⟩

/-! ### Witnesses: the claim theorems applied at concrete inputs -/

/-- Witness for C1: the root split of the tiny example partitions its four
samples between the two children. -/
theorem claim_C1_witness :
    ∃ p ∈ exS0.splittable,
      (nget (growN 1 exS0) p).left_child = some 1 ∧
      (nget (growN 1 exS0) p).right_child = some 2 ∧
      (nget (growN 1 exS0) 1).sample_indices.length +
        (nget (growN 1 exS0) 2).sample_indices.length =
        (nget (growN 1 exS0) p).sample_indices.length ∧
      (∀ i, i ∈ (nget (growN 1 exS0) p).sample_indices ↔
        (i ∈ (nget (growN 1 exS0) 1).sample_indices ∨
         i ∈ (nget (growN 1 exS0) 2).sample_indices)) ∧
      (∀ i, ¬(i ∈ (nget (growN 1 exS0) 1).sample_indices ∧
        i ∈ (nget (growN 1 exS0) 2).sample_indices)) :=
  claim_C1 exS0 (growN 1 exS0) 1 2
    (inv_init exX exG (Hessians.scalar 1) exCfg exS0 (by with_unfolding_all rfl))
    (by with_unfolding_all decide)

/-- Witness for C2: the left leaf of the tiny example carries the value
formula. -/
theorem claim_C2_witness :
    (nget (growN 1 exS0) 1).value =
      exCfg.shrinkage * (-(nget (growN 1 exS0) 1).sum_gradients /
        ((nget (growN 1 exS0) 1).sum_hessians + exCfg.l2_reg)) ∧
    (nget (growN 1 exS0) 1).sum_gradients =
      gradSum exG (nget (growN 1 exS0) 1).sample_indices ∧
    (nget (growN 1 exS0) 1).sum_hessians =
      hessSum (Hessians.scalar 1) (nget (growN 1 exS0) 1).sample_indices :=
  claim_C2 exX exG (Hessians.scalar 1) exCfg exS0 (by with_unfolding_all rfl)
    1 1 (by with_unfolding_all decide)

/-- Witness for C3: the tiny tree grown in one split has pure leaves and
recovers its targets on all four training rows. -/
theorem claim_C3_witness :
    (∀ i, i < exX.n_samples →
      predict_binned (make_predictor (growN 1 exS0)) (rowOf exX i) = exT i) ∧
    (∀ (ns : List PredictorNode) (row : List ℕ) (j fuel : ℕ),
      (ns.getD j defPNode).is_leaf = true →
      predictGo ns row (fuel + 1) j = (ns.getD j defPNode).value) ∧
    (∀ (ns : List PredictorNode) (row : List ℕ) (j fuel : ℕ),
      (ns.getD j defPNode).is_leaf = false →
      predictGo ns row (fuel + 1) j =
        if row.getD (ns.getD j defPNode).feature_idx 0 ≤
            (ns.getD j defPNode).bin_threshold then
          predictGo ns row fuel (ns.getD j defPNode).left_child_index
        else predictGo ns row fuel (ns.getD j defPNode).right_child_index) :=
  claim_C3 exX exG (Hessians.scalar 1) exCfg exS0 exT
    (by with_unfolding_all rfl) 1 rfl rfl
    (fun S _ => by simp [hessSum])
    (by with_unfolding_all decide)
    (by with_unfolding_all decide)

/-- Witness for C4: one sample with `min_samples_leaf = 1` leaves the root an
unsplit finalized leaf. -/
theorem claim_C4_witness :
    (∀ k, growN k exS0small = exS0small) ∧ grow exS0small = exS0small ∧
    exS0small.nodes.length = 1 ∧ exS0small.finalized_leaves = [0] ∧
    exS0small.splittable = [] ∧
    (nget exS0small 0).sample_indices.length = exXsmall.n_samples ∧
    (nget exS0small 0).left_child = none ∧
    (nget exS0small 0).right_child = none :=
  claim_C4 exXsmall [1] (Hessians.scalar 1) exCfg exS0small
    (by with_unfolding_all rfl) (by with_unfolding_all decide)

/-- Witness for C5: the left leaf of the tiny example holds at least
`min_samples_leaf` samples. -/
theorem claim_C5_witness :
    exCfg.min_samples_leaf ≤ (nget (growN 1 exS0) 1).sample_indices.length :=
  claim_C5 exX exG (Hessians.scalar 1) exCfg exS0 (by with_unfolding_all rfl)
    (by with_unfolding_all decide) 1 1 (by with_unfolding_all decide)

/-- Witness for C6: each of the four invalid constructions reports its own
named error. -/
theorem claim_C6_witness :
    initGrower exXfloat exG (Hessians.scalar 1) exCfg =
      .error .notBinnedDtype ∧
    initGrower exXcArr exG (Hessians.scalar 1) exCfg =
      .error .notFortranContiguous ∧
    initGrower exX exG (Hessians.scalar 1) exCfgNegGain =
      .error .negativeMinGain ∧
    initGrower exX exG (Hessians.scalar 1) exCfgNegHess =
      .error .negativeMinHessian :=
  ⟨(claim_C6 exXfloat exG (Hessians.scalar 1) exCfg).1 rfl,
   (claim_C6 exXcArr exG (Hessians.scalar 1) exCfg).2.1 rfl rfl,
   (claim_C6 exX exG (Hessians.scalar 1) exCfgNegGain).2.2.1 rfl rfl
     (by with_unfolding_all decide),
   (claim_C6 exX exG (Hessians.scalar 1) exCfgNegHess).2.2.2 rfl rfl
     (by with_unfolding_all decide) (by with_unfolding_all decide)⟩

/-- Witness for C7: the root split of the tiny example is the first-in-scan
maximum-gain accepted candidate. -/
theorem claim_C7_witness :
    ∃ c ∈ scanCandidates exCfg exX,
      candAccepted exCfg exX (Hessians.scalar 1) (List.range 4)
        (hessSum (Hessians.scalar 1) (List.range 4)) c = true ∧
      exSi = mkSplitInfo exCfg exX exG (Hessians.scalar 1) (List.range 4)
        (gradSum exG (List.range 4)) (hessSum (Hessians.scalar 1) (List.range 4)) c ∧
      exSi.feature_idx = c.1 ∧ exSi.bin_idx = c.2 ∧
      exSi.gain = 1/2 * ((gradSum exG (leftSamples exX (List.range 4) c.1 c.2)) ^ 2 /
          (hessSum (Hessians.scalar 1) (leftSamples exX (List.range 4) c.1 c.2) +
            exCfg.l2_reg) +
        (gradSum exG (List.range 4) -
            gradSum exG (leftSamples exX (List.range 4) c.1 c.2)) ^ 2 /
          ((hessSum (Hessians.scalar 1) (List.range 4) -
            hessSum (Hessians.scalar 1) (leftSamples exX (List.range 4) c.1 c.2)) +
            exCfg.l2_reg) -
        (gradSum exG (List.range 4)) ^ 2 /
          (hessSum (Hessians.scalar 1) (List.range 4) + exCfg.l2_reg)) ∧
      (∀ c' ∈ scanCandidates exCfg exX,
        candAccepted exCfg exX (Hessians.scalar 1) (List.range 4)
          (hessSum (Hessians.scalar 1) (List.range 4)) c' = true →
        candGain exCfg exX exG (Hessians.scalar 1) (List.range 4)
          (gradSum exG (List.range 4))
          (hessSum (Hessians.scalar 1) (List.range 4)) c' ≤
        candGain exCfg exX exG (Hessians.scalar 1) (List.range 4)
          (gradSum exG (List.range 4))
          (hessSum (Hessians.scalar 1) (List.range 4)) c) ∧
      (∀ c' ∈ scanCandidates exCfg exX,
        candAccepted exCfg exX (Hessians.scalar 1) (List.range 4)
          (hessSum (Hessians.scalar 1) (List.range 4)) c' = true →
        candGain exCfg exX exG (Hessians.scalar 1) (List.range 4)
          (gradSum exG (List.range 4))
          (hessSum (Hessians.scalar 1) (List.range 4)) c' =
        candGain exCfg exX exG (Hessians.scalar 1) (List.range 4)
          (gradSum exG (List.range 4))
          (hessSum (Hessians.scalar 1) (List.range 4)) c →
        scanRank exCfg c ≤ scanRank exCfg c') :=
  claim_C7 exCfg exX exG (Hessians.scalar 1) (List.range 4)
    (gradSum exG (List.range 4)) (hessSum (Hessians.scalar 1) (List.range 4))
    exSi (by with_unfolding_all decide)

/-- Witness for C8: two growth steps on the tiny example agree between the
scalar-1 and all-ones hessian modes. -/
theorem claim_C8_witness :
    (growN 2 exS0).nodes = (growN 2 exS0ones).nodes ∧
    (growN 2 exS0).splittable = (growN 2 exS0ones).splittable ∧
    (growN 2 exS0).finalized_leaves = (growN 2 exS0ones).finalized_leaves :=
  claim_C8 exX exG exCfg exS0 exS0ones (by with_unfolding_all rfl)
    (by with_unfolding_all rfl) 2

/-- Witness for C9: the flat predictor of the tiny grown tree has the root
record at index 0 and pre-order child indices. -/
theorem claim_C9_witness :
    0 < (make_predictor (growN 1 exS0)).length ∧
    ((make_predictor (growN 1 exS0)).getD 0 defPNode).value =
      (nget (growN 1 exS0) 0).value ∧
    ((make_predictor (growN 1 exS0)).getD 0 defPNode).count =
      (nget (growN 1 exS0) 0).sample_indices.length ∧
    (∀ j, j < (make_predictor (growN 1 exS0)).length →
      ((make_predictor (growN 1 exS0)).getD j defPNode).is_leaf = false →
      ((make_predictor (growN 1 exS0)).getD j defPNode).left_child_index =
        j + 1 ∧
      j < ((make_predictor (growN 1 exS0)).getD j defPNode).right_child_index ∧
      ((make_predictor (growN 1 exS0)).getD j defPNode).right_child_index <
        (make_predictor (growN 1 exS0)).length) :=
  claim_C9 exX exG (Hessians.scalar 1) exCfg exS0
    (by with_unfolding_all rfl) 1

/-- Witness for C10: on the tiny example the queue holds the root and
`split_next` dequeues it. -/
theorem claim_C10_witness :
    (split_next exS0 = none ↔ exS0.splittable = []) ∧
    (∀ s' l r, split_next exS0 = some (s', l, r) →
      ∃ p pre post, exS0.splittable = pre ++ p :: post ∧
        (∀ q ∈ exS0.splittable, nodeGain exS0 q ≤ nodeGain exS0 p) ∧
        (∀ q ∈ pre, nodeGain exS0 q < nodeGain exS0 p) ∧
        (nget s' p).left_child = some l ∧ (nget s' p).right_child = some r ∧
        p ∉ s'.splittable) :=
  claim_C10 exS0
    (inv_init exX exG (Hessians.scalar 1) exCfg exS0 (by with_unfolding_all rfl))

end Pygbm
